import Mathlib

/-!
Shallow embedding of the Cirrus Logic Open Wavetable (OWT) haptic-waveform
compiler (`owt.c` / `owt.h`, 2023 revision) and verification of the frozen
claims about it.  Pure C functions become Lean functions; the byte buffer of
the bitstream writer becomes an explicit list of emitted bytes; machine
integers are `Nat`/`Int` with explicit `% 2^w` where C truncation or wrap
matters; fallible code returns `Except Unit`.

Where the C source reads indeterminate (uninitialized) memory — the `bank[4]`
buffer of `wt_type10_comp_waveform_get` and the whole `struct wt_type12_pwle`
of `wt_type12_pwle_str_to_bin` — the embedding takes that initial memory
content as an explicit parameter, so that claims about it can be settled for
every (or for a particular) residue.
-/

namespace Owt

/-! ### C character classification and numeric conversions (ctype.h / stdlib.h) -/

/-- ASCII `isspace`. -/
def cIsSpace (c : Char) : Bool :=
  c = ' ' ∨ c = '\t' ∨ c = '\n' ∨ c = '\x0b' ∨ c = '\x0c' ∨ c = '\r'

/-- ASCII `isalpha` (C locale). -/
def cIsAlpha (c : Char) : Bool :=
  ('a' ≤ c ∧ c ≤ 'z') ∨ ('A' ≤ c ∧ c ≤ 'Z')

/-- ASCII `isdigit`. -/
def cIsDigit (c : Char) : Bool :=
  '0' ≤ c ∧ c ≤ '9'

/-- Numeric value of a decimal digit character. -/
def digitVal (c : Char) : ℕ := c.toNat - '0'.toNat

/-- Value of a string of decimal digits (most significant first). -/
def digitsVal (l : List Char) : ℕ :=
  l.foldl (fun acc c => 10 * acc + digitVal c) 0

/-- Longest prefix of decimal digits. -/
def takeDigits (l : List Char) : List Char := l.takeWhile cIsDigit

/-- Remainder after the longest prefix of decimal digits. -/
def dropDigits (l : List Char) : List Char := l.dropWhile cIsDigit

/-- C `atoi`: skip leading whitespace, optional sign, then a (possibly empty)
run of decimal digits; an empty run yields 0.  Overflow is undefined in C and
left unbounded here. -/
def atoiModel (s : List Char) : ℤ :=
  let s := s.dropWhile cIsSpace
  match s with
  | '-' :: rest => -(digitsVal (takeDigits rest) : ℤ)
  | '+' :: rest => (digitsVal (takeDigits rest) : ℤ)
  | _ => (digitsVal (takeDigits s) : ℤ)

/-- C `strtoul` (base 10): like `atoi` but unsigned; a leading `-` makes the
result wrap modulo 2^64 (`unsigned long`). -/
def strtoulModel (s : List Char) : ℕ :=
  let s := s.dropWhile cIsSpace
  match s with
  | '-' :: rest => (2 ^ 64 - digitsVal (takeDigits rest)) % 2 ^ 64
  | '+' :: rest => digitsVal (takeDigits rest)
  | _ => digitsVal (takeDigits s)

/-- Decimal-literal reading of C `strtof` (sign, digits, optional point and
fraction digits; no exponent forms, which the OWT strings never use), as an
exact fraction `(numerator, denominator)` with denominator `10^k` for `k`
fraction digits.  A string with no digits at all reads as 0 with no error,
exactly as `strtof` leaves `errno` untouched and returns 0. -/
def strtofFrac (s : List Char) : ℤ × ℕ :=
  let s := s.dropWhile cIsSpace
  let signed : Bool :=
    match s with
    | '-' :: _ => true
    | _ => false
  let s := match s with
           | '-' :: rest => rest
           | '+' :: rest => rest
           | _ => s
  let ip := takeDigits s
  let rest := dropDigits s
  let fp := match rest with
            | '.' :: r => takeDigits r
            | _ => []
  let den : ℕ := 10 ^ fp.length
  let mag : ℤ := (digitsVal ip : ℤ) * den + (digitsVal fp : ℤ)
  (if signed then -mag else mag, den)

/-- `roundf`: round `num / den` (with `den > 0`) to the nearest integer,
halves away from zero. -/
def roundHalfAway (num : ℤ) (den : ℕ) : ℤ :=
  if 0 ≤ num then (2 * num + den) / (2 * den)
  else -((2 * (-num) + den) / (2 * den))

/-- `parse_float()` from owt.c: convert a textual floating point value to
the integer `round(value * scale)`, failing (`-ERANGE`) when the value lies
outside `[lo, hi]` (the bounds are exact fractions `numerator/denominator`).
The C routine computes in binary `float`; the embedding computes with exact
fractions, which agrees on every decimal literal the verified claims touch. -/
def parse_float (frac : List Char) (scale : ℤ) (lo hi : ℤ × ℕ) :
    Except Unit ℤ :=
  let nd := strtofFrac frac
  if nd.1 * lo.2 < lo.1 * nd.2 ∨ nd.1 * hi.2 > hi.1 * nd.2 then
    Except.error ()
  else Except.ok (roundHalfAway (nd.1 * scale) nd.2)

/-! ### The bitstream writer (`struct dspmem_chunk` and its operations) -/

/-- `struct dspmem_chunk`.  The C struct holds `data`/`max` pointers into a
caller buffer; here `out` is the list of bytes stored so far (so the cursor
`data` is `out.length` bytes past the start) and `cap` is `max - start`,
the capacity in bytes.  `cache`/`cachebits` are the 24-bit accumulator. -/
structure DspmemChunk where
  out : List ℕ
  cap : ℕ
  bytes : ℕ
  cache : ℕ
  cachebits : ℕ
  deriving Repr, DecidableEq

/-- `dspmem_chunk_create()`: fresh chunk over a buffer of `size` bytes. -/
def dspmem_chunk_create (size : ℕ) : DspmemChunk :=
  { out := [], cap := size, bytes := 0, cache := 0, cachebits := 0 }

/-- `dspmem_chunk_end()`: true iff the cursor sits exactly at `max`. -/
def dspmem_chunk_end (ch : DspmemChunk) : Bool :=
  ch.out.length = ch.cap

/-- `dspmem_chunk_bytes()`. -/
def dspmem_chunk_bytes (ch : DspmemChunk) : ℕ := ch.bytes

/-- The four bytes stored by the emission loop
`for (i = 0; i < sizeof(ch->cache); i++, ch->cache <<= 8)
  *ch->data++ = (ch->cache & 0xFF000000) >> 24;`
applied to `w = cache & 0xFFFFFF`: a zero byte (bits 31–24 of the masked
cache) followed by the 24 accumulated bits most significant byte first. -/
def emit4 (w : ℕ) : List ℕ :=
  [0, w / 2 ^ 16, w / 2 ^ 8 % 2 ^ 8, w % 2 ^ 8]

/-- Recursion core of `dspmem_chunk_write()`, structurally recursive on a
fuel bound (the C function tail-calls itself on the leftover bits; Lean gets
the same recursion through fuel).  Every recursive call strictly decreases
`nbits + cachebits` — either bits were consumed, or a full accumulator was
just emptied — so the wrapper's fuel `nbits + cachebits + 1` is never
exhausted and the fuel-0 arm is unreachable (see `write_go_fuel_irrel`). -/
def dspmem_chunk_write_go : ℕ → DspmemChunk → ℕ → ℕ → DspmemChunk × Bool
  | 0, ch, _, _ => (ch, true)
  | fuel + 1, ch, nbits, val =>
    let nwrite := min (24 - ch.cachebits) nbits
    let cache1 := ((ch.cache <<< nwrite) ||| (val >>> (nbits - nwrite))) % 2 ^ 32
    let cb1 := ch.cachebits + nwrite
    if cb1 = 24 then
      if dspmem_chunk_end ch then
        ({ ch with cache := cache1, cachebits := cb1 }, false)
      else
        let w := cache1 % 2 ^ 24
        let ch2 : DspmemChunk :=
          { out := ch.out ++ emit4 w, cap := ch.cap, bytes := ch.bytes + 4,
            cache := 0, cachebits := 0 }
        if 0 < nbits - nwrite then
          dspmem_chunk_write_go fuel ch2 (nbits - nwrite) val
        else (ch2, true)
    else
      -- Here `nwrite = nbits` whenever `cachebits ≤ 23`, so the C guard
      -- `if (nbits)` on the leftover is false and no tail call happens.
      ({ ch with cache := cache1, cachebits := cb1 }, true)

/-- `dspmem_chunk_write()`: merge the value into the 24-bit accumulator and
emit whole 4-byte words.  Returns the mutated chunk together with `true` for
the C return 0 and `false` for `-ENOSPC` (the C caller receives the mutated
struct in either case, and the encoders ignore the return value). -/
def dspmem_chunk_write (ch : DspmemChunk) (nbits val : ℕ) :
    DspmemChunk × Bool :=
  dspmem_chunk_write_go (nbits + ch.cachebits + 1) ch nbits val

/-- Two sufficient fuels compute the same result: every recursive call of
`dspmem_chunk_write_go` strictly decreases `nbits + cachebits`. -/
theorem write_go_fuel_eq : ∀ (f1 f2 : ℕ) (ch : DspmemChunk) (nbits val : ℕ),
    nbits + ch.cachebits < f1 → nbits + ch.cachebits < f2 →
    dspmem_chunk_write_go f1 ch nbits val =
      dspmem_chunk_write_go f2 ch nbits val := by
  intro f1
  induction f1 with
  | zero => intro f2 ch nbits val h1 _; omega
  | succ f1 ih =>
    intro f2 ch nbits val h1 h2
    cases f2 with
    | zero => omega
    | succ f2 =>
      rw [dspmem_chunk_write_go, dspmem_chunk_write_go]
      dsimp only
      split
      · split
        · rfl
        · split
          · rename_i h24 hend hrec
            apply ih
            · simp only [List.length_append]
              omega
            · simp only [List.length_append]
              omega
          · rfl
      · rfl

/-- Any fuel beyond the measure computes `dspmem_chunk_write`: the fuel-0
arm is unreachable. -/
theorem write_go_fuel_irrel (f : ℕ) (ch : DspmemChunk) (nbits val : ℕ)
    (hf : nbits + ch.cachebits < f) :
    dspmem_chunk_write_go f ch nbits val = dspmem_chunk_write ch nbits val :=
  write_go_fuel_eq f (nbits + ch.cachebits + 1) ch nbits val hf (by omega)

/-- `dspmem_chunk_flush()`: pad the pending bits with zeros to the next 24-bit
boundary.  No-op when nothing is pending. -/
def dspmem_chunk_flush (ch : DspmemChunk) : DspmemChunk × Bool :=
  if ch.cachebits = 0 then (ch, true)
  else dspmem_chunk_write ch (24 - ch.cachebits) 0

/-- Issue a whole list of `(nbits, val)` writes in order, discarding the
per-call status exactly as the two encoders in owt.c do. -/
def writeMany (ch : DspmemChunk) (ws : List (ℕ × ℕ)) : DspmemChunk :=
  ws.foldl (fun c p => (dspmem_chunk_write c p.1 p.2).1) ch

/-! ### String utilities shared by both tokenizers -/

/-- `strtok` over a delimiter set: maximal delimiter-free tokens, with empty
pieces skipped (consecutive delimiters count as one). -/
def strtokSplit (delims : List Char) (s : List Char) : List (List Char) :=
  (s.splitOnP (fun c => delims.contains c)).filter (fun t => ¬t.isEmpty)

/-- Whether `pat` occurs at the front of `s`. -/
def hasPfx : List Char → List Char → Bool
  | _, [] => true
  | [], _ :: _ => false
  | a :: s, b :: p => a = b && hasPfx s p

/-- C `strstr(s, pat) != NULL`. -/
def strstrB (s pat : List Char) : Bool :=
  match s with
  | [] => hasPfx [] pat
  | _ :: t => hasPfx s pat || strstrB t pat

/-- C `strnchr(s, count, c) != NULL`: `c` occurs among the first `count`
characters (the NUL terminator cut-off is the end of the list here). -/
def strnchrB (s : List Char) (count : ℕ) (c : Char) : Bool :=
  (s.take count).contains c

/-- `%u` of `sscanf`, restricted to plain digit runs (the OWT tokens carry no
whitespace — `strtok` already split on it — and no sign characters):
the parsed value and the rest of the input, or `none` when no digit leads. -/
def scanU (s : List Char) : Option (ℕ × List Char) :=
  let d := takeDigits s
  if d.isEmpty then none else some (digitsVal d, dropDigits s)

/-- `sscanf(s, "%u<sep>%u<sep>%u", ...)`: number of conversions that
succeeded, and the three values (a slot keeps 0 when not assigned; the C
callers only read slots the return count covers, except `duration_tmp`,
which C initializes to 0 — the same default). -/
def scan3U (sep : Char) (s : List Char) : ℕ × ℕ × ℕ × ℕ :=
  match scanU s with
  | none => (0, 0, 0, 0)
  | some (a, r1) =>
    match r1 with
    | c :: r2 =>
      if c = sep then
        match scanU r2 with
        | none => (1, a, 0, 0)
        | some (b, r3) =>
          match r3 with
          | c2 :: r4 =>
            if c2 = sep then
              match scanU r4 with
              | none => (2, a, b, 0)
              | some (d, _) => (3, a, b, d)
            else (2, a, b, 0)
          | [] => (2, a, b, 0)
      else (1, a, 0, 0)
    | [] => (1, a, 0, 0)

/-! ### Waveform Type 10: Composite — data model -/

/-- `struct wt_ep_metadata` (all `unsigned int`). -/
structure WtEpMetadata where
  id : ℕ
  length : ℕ
  payload : ℕ
  custom_threshold : ℕ
  deriving Repr, DecidableEq

/-- `struct wt_type10_comp_wvfrm`. -/
structure CompWvfrm where
  index : ℕ
  amplitude : ℕ
  duration : ℕ
  deriving Repr, DecidableEq

/-- `struct wt_type10_comp_section` (`repeat` is spelled `repeats`: `repeat`
is a Lean keyword). -/
structure CompSection where
  repeats : ℕ
  flags : ℕ
  delay : ℕ
  wvfrm : CompWvfrm
  deriving Repr, DecidableEq

/-- `struct wt_type10_comp`.  The fixed `sections[256]` array is a total map;
`nsections` is kept as an unbounded `ℕ` (the C `uint8_t` would wrap at 256,
past the point where the C code already indexes out of bounds). -/
structure WtComp where
  nsections : ℕ
  repeats : ℕ
  inner_loop : Bool
  ep : WtEpMetadata
  sections : ℕ → CompSection

/-- The zero-filled section, as produced by `struct wt_type10_comp comp = { 0 }`. -/
def compSectionZero : CompSection :=
  { repeats := 0, flags := 0, delay := 0,
    wvfrm := { index := 0, amplitude := 0, duration := 0 } }

/-- `struct wt_type10_comp comp = { 0 }`. -/
def compZero : WtComp :=
  { nsections := 0, repeats := 0, inner_loop := false,
    ep := { id := 0, length := 0, payload := 0, custom_threshold := 0 },
    sections := fun _ => compSectionZero }

/-- Store section `i`. -/
def setSec (c : WtComp) (i : ℕ) (s : CompSection) : WtComp :=
  { c with sections := fun j => if j = i then s else c.sections j }

/-- `enum wt_type10_comp_specifier`. -/
inductive CompSpecifier
  | outerLoop | innerLoopStart | innerLoopStop | outerLoopRepetition
  | epDataStart | wvfrm | delay | invalid
  deriving Repr, DecidableEq

/-- `wt_type10_comp_specifier_get()`: the chained strcmp/strstr/strnchr
cascade, in source order (`~`, exact `!!`, contains `!!`, contains `!` within
20 chars, contains `.` within 20 chars, contains `[` within 2 chars, else
delay). -/
def wt_type10_comp_specifier_get (s : List Char) : CompSpecifier :=
  if s = ['~'] then .outerLoop
  else if s = ['!', '!'] then .innerLoopStart
  else if strstrB s ['!', '!'] then .innerLoopStop
  else if strnchrB s 20 '!' then .outerLoopRepetition
  else if strnchrB s 20 '.' then .wvfrm
  else if strnchrB s 2 '[' then .epDataStart
  else .delay

/-- `wt_type10_comp_waveform_get()`.  `bankResidue` is the indeterminate
initial content of the stack buffer `char bank[4]` (its first three bytes),
which the C code compares against "RAM"/"ROM"/"OWT" without ever writing it
on the no-bank-prefix path. -/
def wt_type10_comp_waveform_get (bankResidue : List Char) (s : List Char)
    (sec : CompSection) : Except Unit CompSection :=
  if s.length < 3 then .error ()
  else
    let parsed : Except Unit (List Char × ℕ × ℕ × ℕ) :=
      if cIsAlpha (s.getD 0 ' ') ∧ cIsAlpha (s.getD 1 ' ') ∧
          cIsAlpha (s.getD 2 ' ') then
        -- Bank detected: skip the alphabetic run past the first three
        -- letters, then sscanf(str + j, "%3s%u.%u.%u", ...).
        let j := ((s.drop 3).takeWhile cIsAlpha).length
        let t := s.drop j
        let r := scan3U '.' (t.drop 3)
        if r.1 + 1 < 3 then .error () else .ok (t.take 3, r.2.1, r.2.2.1, r.2.2.2)
      else
        -- No bank specified: i stops where isalpha first failed, and the
        -- scan starts at str + i - 1.
        let i : ℕ := if ¬cIsAlpha (s.getD 0 ' ') then 1
                     else if ¬cIsAlpha (s.getD 1 ' ') then 2 else 3
        let r := scan3U '.' (s.drop (i - 1))
        if r.1 < 2 then .error () else .ok (bankResidue.take 3, r.2.1, r.2.2.1, r.2.2.2)
    match parsed with
    | .error _ => .error ()
    | .ok (bank0, index_tmp, amp_tmp, duration_tmp) =>
      let bank := if bank0 ≠ ['R', 'A', 'M'] ∧ bank0 ≠ ['R', 'O', 'M'] ∧
                      bank0 ≠ ['O', 'W', 'T'] then ['R', 'A', 'M'] else bank0
      if amp_tmp = 0 ∨ amp_tmp > 100 then .error ()
      else
        let durationRes : Except Unit ℕ :=
          if duration_tmp ≠ 0 ∧ duration_tmp ≠ 0xFFFF then
            if duration_tmp > 16383 then .error () else .ok (duration_tmp * 4)
          else .ok duration_tmp
        match durationRes with
        | .error _ => .error ()
        | .ok dur =>
          let flags := if bank = ['R', 'O', 'M'] then sec.flags ||| 0x40
                       else if bank = ['O', 'W', 'T'] then sec.flags ||| 0x20
                       else sec.flags
          .ok { sec with
                flags := flags,
                wvfrm := { index := index_tmp % 2 ^ 8,
                           amplitude := amp_tmp % 2 ^ 8,
                           duration := dur % 2 ^ 16 } }

/-- `wt_type10_comp_decode()`: one specifier applied to the accumulating
composite struct. -/
def wt_type10_comp_decode (bankResidue : List Char) (comp : WtComp)
    (spec : CompSpecifier) (s : List Char) : Except Unit WtComp :=
  match spec with
  | .outerLoop =>
    if comp.repeats ≠ 0 then .error ()
    else .ok { comp with repeats := 0xFF }
  | .outerLoopRepetition =>
    if comp.repeats ≠ 0 then .error ()
    else
      let lval := strtoulModel (s.takeWhile (fun c => c ≠ '!'))
      if lval = 0 then .error ()
      else .ok { comp with repeats := lval % 2 ^ 8 }
  | .innerLoopStart =>
    if comp.inner_loop then .error ()
    else
      let cur := comp.sections comp.nsections
      let c1 := if cur.wvfrm.amplitude ≠ 0 ∨ cur.delay ≠ 0 then
                  { comp with nsections := comp.nsections + 1 }
                else comp
      let c2 := setSec c1 c1.nsections
                  { c1.sections c1.nsections with repeats := 0xFF }
      .ok { c2 with inner_loop := true }
  | .epDataStart =>
    let r := scan3U ';' (s.drop 1)
    if r.1 < 3 then .error ()
    else .ok { comp with
               ep := { id := 2, length := r.2.1, payload := r.2.2.1,
                       custom_threshold := r.2.2.2 } }
  | .innerLoopStop =>
    if ¬comp.inner_loop then .error ()
    else
      let lval := strtoulModel (s.takeWhile (fun c => c ≠ '!'))
      if lval = 0 then .error ()
      else
        let c1 := setSec comp comp.nsections
                    { comp.sections comp.nsections with repeats := lval % 2 ^ 8 }
        .ok { c1 with inner_loop := false, nsections := c1.nsections + 1 }
  | .wvfrm =>
    let cur := comp.sections comp.nsections
    let c1 := if cur.wvfrm.amplitude ≠ 0 ∨ cur.delay ≠ 0 then
                { comp with nsections := comp.nsections + 1 }
              else comp
    match wt_type10_comp_waveform_get bankResidue s (c1.sections c1.nsections) with
    | .error _ => .error ()
    | .ok sec =>
      let sec2 := if sec.wvfrm.duration ≠ 0 then
                    { sec with flags := sec.flags ||| 0x80 }
                  else sec
      .ok (setSec c1 c1.nsections sec2)
  | .delay =>
    let cur := comp.sections comp.nsections
    let c1 := if cur.delay ≠ 0 then { comp with nsections := comp.nsections + 1 }
              else comp
    let lval := strtoulModel s
    if lval = 0 then .error ()
    else if lval > 10000 then .error ()
    else .ok (setSec c1 c1.nsections
                { c1.sections c1.nsections with delay := lval % 2 ^ 16 })
  | .invalid => .error ()

/-! ### Waveform Type 10: Composite — encoding -/

/-- The `(nbits, value)` pairs `wt_type10_comp_to_buffer()` feeds the writer
for one section: amplitude, index, inner repeat, flags, 16-bit delay, and —
when the duration flag (0x80) is set — a pad byte and the 16-bit duration. -/
def compSectionWrites (s : CompSection) : List (ℕ × ℕ) :=
  [(8, s.wvfrm.amplitude), (8, s.wvfrm.index), (8, s.repeats), (8, s.flags),
   (16, s.delay)]
  ++ (if s.flags &&& 0x80 ≠ 0 then [(8, 0), (16, s.wvfrm.duration)] else [])

/-- The full write sequence of `wt_type10_comp_to_buffer()`: the EP metadata
header when `ep.id == 2`, the pad/section-count/outer-repeat header, then
every section in order. -/
def compWrites (c : WtComp) : List (ℕ × ℕ) :=
  (if c.ep.id = 2 then
    [(8, c.ep.id), (8, c.ep.length), (8, c.ep.payload),
     (24, c.ep.custom_threshold)]
   else [])
  ++ [(8, 0), (8, c.nsections), (8, c.repeats)]
  ++ (List.range c.nsections).flatMap (fun i => compSectionWrites (c.sections i))

/-- `wt_type10_comp_to_buffer()`: run the write sequence (return values of the
individual writes are ignored, exactly as in C) and report
`dspmem_chunk_bytes` together with the stored bytes.  No flush is issued. -/
def wt_type10_comp_to_buffer (c : WtComp) (size : ℕ) : ℕ × List ℕ :=
  let ch := writeMany (dspmem_chunk_create size) (compWrites c)
  (dspmem_chunk_bytes ch, ch.out)

/-- Result of a composite compile: the reported byte count, the bytes stored
in the caller's buffer, and (for specification purposes) the decoded struct. -/
structure CompRes where
  bytes : ℕ
  out : List ℕ
  comp : WtComp

/-- `wt_type10_comp_str_to_bin()`: tokenize on `"], \n"`, decode every token,
reject an unterminated inner loop, close a trailing half-built section, then
serialize with buffer size `WT_TYPE12_PWLE_SINGLE_PACKED_MAX` (1152). -/
def wt_type10_comp_str_to_bin (bankResidue : List Char) (s : List Char) :
    Except Unit CompRes :=
  let toks := strtokSplit [']', ',', ' ', '\n'] s
  match toks.foldlM
      (fun c t => wt_type10_comp_decode bankResidue c
                    (wt_type10_comp_specifier_get t) t) compZero with
  | .error _ => .error ()
  | .ok comp =>
    if comp.inner_loop then .error ()
    else
      let cur := comp.sections comp.nsections
      let comp := if cur.wvfrm.amplitude ≠ 0 ∨ cur.delay ≠ 0 then
                    { comp with nsections := comp.nsections + 1 }
                  else comp
      let r := wt_type10_comp_to_buffer comp 1152
      .ok { bytes := r.1, out := r.2, comp := comp }

/-! ### Waveform Type 12: PWLE — data model -/

/-- `struct wt_type12_pwle_section` (`uint16_t time/level/frequency`,
`uint8_t flags`, `uint32_t vbtarget`). -/
structure PwleSection where
  time : ℕ
  level : ℕ
  frequency : ℕ
  flags : ℕ
  vbtarget : ℕ
  deriving Repr, DecidableEq

/-- `struct wt_type12_svc_metadata`. -/
structure WtSvcMetadata where
  id : ℕ
  length : ℕ
  mode : ℕ
  braking_time : ℕ
  deriving Repr, DecidableEq

/-- `struct wt_type12_pwle` (`repeat` spelled `repeats`).  The C local in
`wt_type12_pwle_str_to_bin` is **not** zero-initialized: apart from `wlength`
and `sections[0].flags`, every field starts as whatever the stack held, so
the embedding passes the whole initial struct in as a parameter. -/
structure WtPwle where
  feature : ℕ
  wlength : ℕ
  repeats : ℕ
  wait : ℕ
  nsections : ℕ
  nampsections : ℕ
  svc : WtSvcMetadata
  ep : WtEpMetadata
  sections : ℕ → PwleSection

/-- Store PWLE section `i`. -/
def setPwleSec (pw : WtPwle) (i : ℕ) (s : PwleSection) : WtPwle :=
  { pw with sections := fun j => if j = i then s else pw.sections j }

/-- A zero-filled `wt_type12_pwle`, used as one particular choice of initial
stack residue in concrete runs. -/
def pwleZero : WtPwle :=
  { feature := 0, wlength := 0, repeats := 0, wait := 0, nsections := 0,
    nampsections := 0,
    svc := { id := 0, length := 0, mode := 0, braking_time := 0 },
    ep := { id := 0, length := 0, payload := 0, custom_threshold := 0 },
    sections := fun _ => { time := 0, level := 0, frequency := 0, flags := 0,
                           vbtarget := 0 } }

/-- `enum wt_type12_pwle_specifier` (2023 header, which also carries the
SVC/EP keys and the relative-frequency key). -/
inductive PwleSpecifier
  | save | feature | repeatSpec | wait | svcMode | svcBrakingTime
  | epLength | epPayload | epThresh
  | time | level | freq | chirp | brake | ar | vbt | relfreq | invalid
  deriving Repr, DecidableEq

/-- `wt_type12_pwle_specifier_get()`: first-match-wins cascade over the key
(`S`, `WF`, `RP`, `WT`, `T`, `L`, `F`, `C`, `B`, `AR`, `V`, `M`, `K`, `EM`,
`ET`, `EC`, `R`). -/
def wt_type12_pwle_specifier_get (s : List Char) : PwleSpecifier :=
  match s with
  | [] => .invalid
  | c0 :: _ =>
    if c0 = 'S' then .save
    else if hasPfx s ['W', 'F'] then .feature
    else if hasPfx s ['R', 'P'] then .repeatSpec
    else if hasPfx s ['W', 'T'] then .wait
    else if c0 = 'T' then .time
    else if c0 = 'L' then .level
    else if c0 = 'F' then .freq
    else if c0 = 'C' then .chirp
    else if c0 = 'B' then .brake
    else if hasPfx s ['A', 'R'] then .ar
    else if c0 = 'V' then .vbt
    else if c0 = 'M' then .svcMode
    else if c0 = 'K' then .svcBrakingTime
    else if hasPfx s ['E', 'M'] then .epLength
    else if hasPfx s ['E', 'T'] then .epPayload
    else if hasPfx s ['E', 'C'] then .epThresh
    else if c0 = 'R' then .relfreq
    else .invalid

/-! ### Waveform Type 12: PWLE — per-key entry helpers -/

/-- `wt_type12_pwle_save_entry()`. -/
def wt_type12_pwle_save_entry (token : List Char) : Except Unit Unit :=
  let val := atoiModel token
  if val = 1 ∨ val = 0 then .ok () else .error ()

/-- `wt_type12_pwle_feature_entry()`: feature bits 0–255, stored shifted left
by `WT_TYPE12_PWLE_WVFRM_FT_SHFT` (8). -/
def wt_type12_pwle_feature_entry (pw : WtPwle) (token : List Char) :
    Except Unit WtPwle :=
  let val := atoiModel token
  if val > 255 ∨ val < 0 then .error ()
  else .ok { pw with feature := val.toNat <<< 8 }

/-- `wt_type12_pwle_repeat_entry()`. -/
def wt_type12_pwle_repeat_entry (pw : WtPwle) (token : List Char) :
    Except Unit WtPwle :=
  let val := atoiModel token
  if val < 0 ∨ val > 255 then .error ()
  else .ok { pw with repeats := val.toNat }

/-- `wt_type12_pwle_svc_mode_entry()`: mode −1 (none) to 3; any mode but −1
stamps the SVC metadata id (1) and length. -/
def wt_type12_pwle_svc_mode_entry (pw : WtPwle) (token : List Char) :
    Except Unit WtPwle :=
  let val := atoiModel token
  if val < -1 ∨ val > 3 then .error ()
  else if val ≠ -1 then
    .ok { pw with svc := { pw.svc with id := 1, length := 1, mode := val.toNat } }
  else .ok pw

/-- `wt_type12_pwle_svc_braking_time_entry()`: 0–1000 ms, stored multiplied
by 8 (`WT_TYPE12_PWLE_SAMPLES_PER_MS`). -/
def wt_type12_pwle_svc_braking_time_entry (pw : WtPwle) (token : List Char) :
    Except Unit WtPwle :=
  let val := atoiModel token
  if val < 0 ∨ val > 1000 then .error ()
  else .ok { pw with svc := { pw.svc with braking_time := val.toNat * 8 } }

/-- `wt_type12_pwle_ep_length_entry()`: the C guard is
`if (val != 1 || val != 0)`, which is true of every value, so this entry
always fails (transcribed verbatim). -/
def wt_type12_pwle_ep_length_entry (pw : WtPwle) (token : List Char) :
    Except Unit WtPwle :=
  let val := atoiModel token
  if val ≠ 1 ∨ val ≠ 0 then .error ()
  else .ok { pw with ep := { pw.ep with length := val.toNat } }

/-- `wt_type12_pwle_ep_payload_entry()`. -/
def wt_type12_pwle_ep_payload_entry (pw : WtPwle) (token : List Char) :
    Except Unit WtPwle :=
  let val := atoiModel token
  if val < 0 ∨ val > 7 then .error ()
  else
    let pw := { pw with ep := { pw.ep with payload := val.toNat } }
    if val ≠ 0 then .ok { pw with ep := { pw.ep with id := 2 } } else .ok pw

/-- `wt_type12_pwle_ep_threshold_entry()`. -/
def wt_type12_pwle_ep_threshold_entry (pw : WtPwle) (token : List Char) :
    Except Unit WtPwle :=
  let val := atoiModel token
  if val < 0 then .error ()
  else .ok { pw with ep := { pw.ep with custom_threshold := val.toNat } }

/-- `wt_type12_pwle_wait_time_entry()`: 0–1023.75 ms in quarter-millisecond
units; note that the raw wait is *added into `wlength`* here. -/
def wt_type12_pwle_wait_time_entry (pw : WtPwle) (token : List Char) :
    Except Unit WtPwle :=
  match parse_float token 4 (0, 1) (4095, 4) with
  | .error _ => .error ()
  | .ok val =>
    let w := val.toNat
    .ok { pw with wait := w, wlength := pw.wlength + w }

/-- The signed-int-to-`uint16_t` store used for level and frequency. -/
def toU16 (v : ℤ) : ℕ := (v % 65536).toNat

/-- `wt_type12_pwle_level_entry()`: −1 to 0.9995118 in 1/2048 units, stored
through the `uint16_t` level field. -/
def wt_type12_pwle_level_entry (token : List Char) (sec : PwleSection) :
    Except Unit PwleSection :=
  match parse_float token 2048 (-1, 1) (9995118, 10000000) with
  | .error _ => .error ()
  | .ok val => .ok { sec with level := toU16 val }

/-- `wt_type12_pwle_freq_entry()`: `token` is the `R` value, `freq_val` the
saved `F` value.  `R = 0`: absolute frequency (0 meaning resonant-frequency
tracking, otherwise 0.25–1023.75 Hz) with the extended-frequency bit (0x10);
`R = 1`: relative −512.00–511.75 Hz with the relative-frequency bit (0x08). -/
def wt_type12_pwle_freq_entry (token : List Char) (freq_val : List Char)
    (sec : PwleSection) : Except Unit PwleSection :=
  let rel_val := atoiModel token
  if rel_val = 0 then
    let r : Except Unit ℤ :=
      match parse_float freq_val 4 (1, 4) (4095, 4) with
      | .ok v => .ok v
      | .error _ => if atoiModel freq_val = 0 then .ok 0 else .error ()
    match r with
    | .error _ => .error ()
    | .ok val => .ok { sec with frequency := toU16 val,
                                flags := sec.flags ||| 0x10 }
  else if rel_val = 1 then
    match parse_float freq_val 4 (-512, 1) (2047, 4) with
    | .error _ => .error ()
    | .ok val => .ok { sec with frequency := toU16 val,
                                flags := sec.flags ||| 0x08 }
  else .error ()

/-- `wt_type12_pwle_vb_target_entry()`: 0.0–1.0 scaled by 0x7FFFFF. -/
def wt_type12_pwle_vb_target_entry (token : List Char) (sec : PwleSection) :
    Except Unit PwleSection :=
  match parse_float token 0x7FFFFF (0, 1) (1, 1) with
  | .error _ => .error ()
  | .ok val => .ok { sec with vbtarget := val.toNat }

/-! ### Waveform Type 12: PWLE — the parsing loop of `wt_type12_pwle_str_to_bin` -/

/-- The loop state of `wt_type12_pwle_str_to_bin`: the struct being built,
the current-section cursor, the per-key completeness booleans
`t l f c b a r v`, the `indef` flag, the token counters, and the saved
`freq_val` pointer.  `gTimeSum`/`gWaitAdded` are ghost fields (they influence
nothing) recording the sum of the accepted non-indefinite time entries and
whether a `WT` entry ran, used to state the total-length theorem. -/
structure PwleLoopSt where
  pw : WtPwle
  secIdx : ℕ
  t : Bool
  l : Bool
  f : Bool
  c : Bool
  b : Bool
  a : Bool
  r : Bool
  v : Bool
  indef : Bool
  numVals : ℕ
  numSegs : ℕ
  freqVal : Option (List Char)
  gTimeSum : ℕ
  gWaitAdded : Bool

/-- Loop entry state over stack residue `g`: the C function only initializes
`pwle.wlength = 0` and `section->flags = 0` for the first section. -/
def pwleInit (g : WtPwle) : PwleLoopSt :=
  { pw := setPwleSec { g with wlength := 0 } 0 { g.sections 0 with flags := 0 },
    secIdx := 0, t := false, l := false, f := false, c := false, b := false,
    a := false, r := false, v := false, indef := false, numVals := 0,
    numSegs := 0, freqVal := none, gTimeSum := 0, gWaitAdded := false }

/-- A token's value after `strsep(&str, ":")`: `none` when the token has no
colon, in which case the C entry helpers would dereference NULL; the
embedding turns that undefined behaviour into a parse failure. -/
def tokenValue (tok : List Char) : Option (List Char) :=
  match tok.dropWhile (fun ch => ch ≠ ':') with
  | [] => none
  | _ :: v => some v

/-- Require a value for a key (see `tokenValue`). -/
def reqVal (o : Option (List Char)) : Except Unit (List Char) :=
  match o with
  | none => .error ()
  | some v => .ok v

/-- The `switch` body of one iteration of the `wt_type12_pwle_str_to_bin`
token loop, on the key/value split of the token. -/
def pwleTokenCore (st : PwleLoopSt) (key : List Char)
    (value : Option (List Char)) : Except Unit PwleLoopSt :=
  match wt_type12_pwle_specifier_get key with
  | .save =>
    if st.numVals ≠ 0 then .error ()
    else
      match reqVal value with
      | .error _ => .error ()
      | .ok v =>
        match wt_type12_pwle_save_entry v with
        | .error _ => .error ()
        | .ok _ => .ok st
  | .feature =>
    if st.numVals ≠ 1 then .error ()
    else
      match reqVal value with
      | .error _ => .error ()
      | .ok v =>
        match wt_type12_pwle_feature_entry st.pw v with
        | .error _ => .error ()
        | .ok pw => .ok { st with pw := pw }
  | .repeatSpec =>
    if st.numVals ≠ 2 then .error ()
    else
      match reqVal value with
      | .error _ => .error ()
      | .ok v =>
        match wt_type12_pwle_repeat_entry st.pw v with
        | .error _ => .error ()
        | .ok pw => .ok { st with pw := pw }
  | .wait =>
    if st.numVals ≠ 3 then .error ()
    else
      match reqVal value with
      | .error _ => .error ()
      | .ok v =>
        match wt_type12_pwle_wait_time_entry st.pw v with
        | .error _ => .error ()
        | .ok pw => .ok { st with pw := pw, gWaitAdded := true }
  | .svcMode =>
    if st.numVals ≠ 4 then .error ()
    else
      match reqVal value with
      | .error _ => .error ()
      | .ok v =>
        match wt_type12_pwle_svc_mode_entry st.pw v with
        | .error _ => .error ()
        | .ok pw => .ok { st with pw := pw }
  | .svcBrakingTime =>
    if st.numVals ≠ 5 then .error ()
    else
      match reqVal value with
      | .error _ => .error ()
      | .ok v =>
        match wt_type12_pwle_svc_braking_time_entry st.pw v with
        | .error _ => .error ()
        | .ok pw => .ok { st with pw := pw }
  | .epLength =>
    if st.numVals ≠ 6 then .error ()
    else
      match reqVal value with
      | .error _ => .error ()
      | .ok v =>
        match wt_type12_pwle_ep_length_entry st.pw v with
        | .error _ => .error ()
        | .ok pw => .ok { st with pw := pw }
  | .epPayload =>
    if st.numVals ≠ 7 then .error ()
    else
      match reqVal value with
      | .error _ => .error ()
      | .ok v =>
        match wt_type12_pwle_ep_payload_entry st.pw v with
        | .error _ => .error ()
        | .ok pw => .ok { st with pw := pw }
  | .epThresh =>
    if st.numVals ≠ 8 then .error ()
    else
      match reqVal value with
      | .error _ => .error ()
      | .ok v =>
        match wt_type12_pwle_ep_threshold_entry st.pw v with
        | .error _ => .error ()
        | .ok pw => .ok { st with pw := pw }
  | .time =>
    -- The completeness check of the previous segment fires only past the
    -- ninth token (PWLE_SPEC_NUM_VALS); it resets every flag but `r`.
    let chk : Except Unit PwleLoopSt :=
      if st.numVals > 9 then
        if ¬(st.t ∧ st.l ∧ st.f ∧ st.c ∧ st.b ∧ st.a ∧ st.v) then .error ()
        else
          .ok { st with t := false, l := false, f := false, c := false,
                        b := false, a := false, v := false }
      else .ok st
    match chk with
    | .error _ => .error ()
    | .ok st1 =>
      match reqVal value with
      | .error _ => .error ()
      | .ok vstr =>
        match parse_float vstr 4 (0, 1) (65535, 4) with
        | .error _ => .error ()
        | .ok val =>
          let n := val.toNat
          let sec := { st1.pw.sections st1.secIdx with time := n }
          let pw1 := setPwleSec st1.pw st1.secIdx sec
          if n = 0xFFFF then
            .ok { st1 with pw := pw1, indef := true, t := true }
          else
            .ok { st1 with pw := { pw1 with wlength := pw1.wlength + n },
                           gTimeSum := st1.gTimeSum + n, t := true }
  | .level =>
    match reqVal value with
    | .error _ => .error ()
    | .ok vstr =>
      match wt_type12_pwle_level_entry vstr (st.pw.sections st.secIdx) with
      | .error _ => .error ()
      | .ok sec => .ok { st with pw := setPwleSec st.pw st.secIdx sec, l := true }
  | .freq =>
    .ok { st with freqVal := value, f := true }
  | .chirp =>
    match reqVal value with
    | .error _ => .error ()
    | .ok vstr =>
      let val := atoiModel vstr
      if val < 0 ∨ val > 1 then .error ()
      else
        let sec := st.pw.sections st.secIdx
        let sec := if val ≠ 0 then { sec with flags := sec.flags ||| 0x80 }
                   else sec
        .ok { st with pw := setPwleSec st.pw st.secIdx sec, c := true }
  | .brake =>
    match reqVal value with
    | .error _ => .error ()
    | .ok vstr =>
      let val := atoiModel vstr
      if val < 0 ∨ val > 1 then .error ()
      else
        let sec := st.pw.sections st.secIdx
        let sec := if val ≠ 0 then { sec with flags := sec.flags ||| 0x40 }
                   else sec
        .ok { st with pw := setPwleSec st.pw st.secIdx sec, b := true }
  | .ar =>
    match reqVal value with
    | .error _ => .error ()
    | .ok vstr =>
      let val := atoiModel vstr
      if val < 0 ∨ val > 1 then .error ()
      else if val ≠ 0 then
        let sec := st.pw.sections st.secIdx
        let sec := { sec with flags := sec.flags ||| 0x20 }
        let pw1 := setPwleSec st.pw st.secIdx sec
        .ok { st with pw := { pw1 with nampsections := pw1.nampsections + 1 },
                      a := true }
      else .ok { st with a := true }
  | .relfreq =>
    match reqVal value with
    | .error _ => .error ()
    | .ok vstr =>
      match reqVal st.freqVal with
      | .error _ => .error ()
      | .ok fv =>
        match wt_type12_pwle_freq_entry vstr fv (st.pw.sections st.secIdx) with
        | .error _ => .error ()
        | .ok sec =>
          .ok { st with pw := setPwleSec st.pw st.secIdx sec, r := true }
  | .vbt =>
    let sec0 := st.pw.sections st.secIdx
    let pw1res : Except Unit WtPwle :=
      if sec0.flags &&& 0x20 ≠ 0 then
        match reqVal value with
        | .error _ => .error ()
        | .ok vstr =>
          match wt_type12_pwle_vb_target_entry vstr sec0 with
          | .error _ => .error ()
          | .ok sec => .ok (setPwleSec st.pw st.secIdx sec)
      else .ok st.pw
    match pw1res with
    | .error _ => .error ()
    | .ok pw1 =>
      let idx := st.secIdx + 1
      let pw2 := setPwleSec pw1 idx { pw1.sections idx with flags := 0 }
      .ok { st with pw := pw2, v := true, numSegs := st.numSegs + 1,
                    secIdx := idx }
  | .invalid => .error ()

/-- One iteration of the `wt_type12_pwle_str_to_bin` token loop: the
`num_vals` overflow guard (`-E2BIG`), the `strsep(&str, ":")` key/value
split, the `switch`, and the `num_vals++` at the bottom of the loop. -/
def pwleTokenStep (st : PwleLoopSt) (tok : List Char) :
    Except Unit PwleLoopSt :=
  if st.numVals ≥ 1787 then .error () -- WT_TYPE12_PWLE_TOTAL_VALS
  else
    match pwleTokenCore st (tok.takeWhile (fun ch => ch ≠ ':'))
        (tokenValue tok) with
    | .error _ => .error ()
    | .ok st2 => .ok { st2 with numVals := st2.numVals + 1 }

/-! ### Waveform Type 12: PWLE — encoding and entry point -/

/-- The write sequence of `wt_type12_pwle_write()` for one section: 16-bit
time, 12-bit level, 12-bit frequency, the flag byte `(flags | 1) << 4`, and
(when the amplitude-regulation bit 0x20 is set) the 24-bit vbtarget. -/
def pwleSectionWrites (s : PwleSection) : List (ℕ × ℕ) :=
  [(16, s.time), (12, s.level), (12, s.frequency), (8, (s.flags ||| 1) <<< 4)]
  ++ (if s.flags &&& 0x20 ≠ 0 then [(24, s.vbtarget)] else [])

/-- The full write sequence of `wt_type12_pwle_write()`: header (feature,
type 12, header words 3, total word count), section info (24-bit wlength,
repeat, 12-bit wait, section count), every section, and — when the metadata
feature bit (1 << 10) is set — the SVC block (if `svc.id == 1`), the EP block
(if `ep.id == 2`, with the custom threshold when `ep.length == 1`) and the
0xFFFFFF terminator. -/
def pwleWrites (pw : WtPwle) : List (ℕ × ℕ) :=
  [(16, pw.feature), (8, 12), (24, 3),
   (24, pw.nsections * 2 + pw.nampsections + 3),
   (24, pw.wlength), (8, pw.repeats), (12, pw.wait), (8, pw.nsections)]
  ++ (List.range pw.nsections).flatMap (fun i => pwleSectionWrites (pw.sections i))
  ++ (if pw.feature &&& 1024 ≠ 0 then
        (if pw.svc.id = 1 then
          [(8, pw.svc.id), (8, pw.svc.length), (8, pw.svc.mode),
           (24, pw.svc.braking_time)]
         else [])
        ++ (if pw.ep.id = 2 then
              [(8, pw.ep.id), (8, pw.ep.length), (8, pw.ep.payload)]
              ++ (if pw.ep.length = 1 then [(24, pw.ep.custom_threshold)]
                  else [])
            else [])
        ++ [(24, 0xFFFFFF)]
      else [])

/-- `wt_type12_pwle_write()`: run the write sequence (statuses ignored, as in
C), flush, and report `dspmem_chunk_bytes` with the stored bytes. -/
def wt_type12_pwle_write (pw : WtPwle) (size : ℕ) : ℕ × List ℕ :=
  let ch := writeMany (dspmem_chunk_create size) (pwleWrites pw)
  let ch := (dspmem_chunk_flush ch).1
  (ch.bytes, ch.out)

/-- Result of a PWLE compile: reported byte count, stored bytes, the final
struct, and the ghost trace fields of the loop (for stating properties). -/
structure PwleRes where
  bytes : ℕ
  out : List ℕ
  pw : WtPwle
  indef : Bool
  numSegs : ℕ
  gTimeSum : ℕ
  gWaitAdded : Bool

/-- The end-of-loop total-length computation of `wt_type12_pwle_str_to_bin`,
in `uint32_t` arithmetic:
`wlength *= repeat + 1; wlength -= wait; wlength *= 2;` then OR of the
indefinite bit (0x400000) when a section used the sentinel and of the
`WT_LEN_CALCD` bit (0x800000) always. -/
def pwleWlengthFinal (wlengthAcc wait repeats : ℕ) (indef : Bool) : ℕ :=
  let wl1 := (wlengthAcc * (repeats + 1)) % 2 ^ 32
  let wl2 := (wl1 + (2 ^ 32 - wait % 2 ^ 32)) % 2 ^ 32
  let wl3 := (wl2 * 2) % 2 ^ 32
  (if indef then wl3 ||| 0x400000 else wl3) ||| 0x800000

/-- `wt_type12_pwle_str_to_bin()` over initial stack residue `g`: tokenize on
`",\n"`, run the token loop, require the final segment complete (including
the relative-frequency flag `r`), store the `uint8_t` section count, finish
the total-length computation, and serialize with buffer size
`WT_TYPE12_PWLE_BYTES_MAX` (2302). -/
def wt_type12_pwle_str_to_bin (g : WtPwle) (s : List Char) :
    Except Unit PwleRes :=
  let toks := strtokSplit [',', '\n'] s
  match toks.foldlM pwleTokenStep (pwleInit g) with
  | .error _ => .error ()
  | .ok st =>
    if ¬(st.t ∧ st.l ∧ st.f ∧ st.c ∧ st.b ∧ st.a ∧ st.v ∧ st.r) then
      .error ()
    else
      let pw1 := { st.pw with nsections := st.numSegs % 2 ^ 8 }
      let pw2 := { pw1 with
                   wlength := pwleWlengthFinal pw1.wlength pw1.wait
                                pw1.repeats st.indef }
      let wr := wt_type12_pwle_write pw2 2302
      .ok { bytes := wr.1, out := wr.2, pw := pw2, indef := st.indef,
            numSegs := st.numSegs, gTimeSum := st.gTimeSum,
            gWaitAdded := st.gWaitAdded }

/-- The dispatch condition of `get_owt_data()`: `full_str[0] == 'S'`, the
literal first character of the string (for the empty string C reads the NUL
terminator, which is not `'S'`). -/
def routesToPwle (s : List Char) : Bool :=
  match s with
  | c :: _ => c = 'S'
  | [] => false

/-- `get_owt_data()`: dispatch on the *first character* of the string —
`'S'` routes to the PWLE compiler, anything else (whitespace included) to
the Composite compiler.  Returns the reported byte count and the bytes. -/
def get_owt_data (g : WtPwle) (bankResidue : List Char) (s : List Char) :
    Except Unit (ℕ × List ℕ) :=
  if routesToPwle s then
    (wt_type12_pwle_str_to_bin g s).map (fun r => (r.bytes, r.out))
  else
    (wt_type10_comp_str_to_bin bankResidue s).map (fun r => (r.bytes, r.out))

/-! ### Arithmetic facts about the accumulator -/

/-- Merging fresh low bits below shifted-up old bits is plain addition. -/
theorem lor_mul_pow_eq_add :
    ∀ (k a b : ℕ), b < 2 ^ k → (a * 2 ^ k) ||| b = a * 2 ^ k + b := by
  intro k
  induction k with
  | zero =>
    intro a b hb
    have hb0 : b = 0 := by omega
    subst hb0
    simp
  | succ k ih =>
    intro a b hb
    have hbit : Nat.bit (decide (b % 2 = 1)) (b / 2) = b :=
      Nat.bit_decide_mod_two_eq_one_shiftRight_one b
    have hdiv : b / 2 < 2 ^ k := by
      have : 2 ^ (k + 1) = 2 * 2 ^ k := by ring
      omega
    have ha : a * 2 ^ (k + 1) = Nat.bit false (a * 2 ^ k) := by
      rw [Nat.bit_val]
      simp
      ring
    calc a * 2 ^ (k + 1) ||| b
        = Nat.bit false (a * 2 ^ k) ||| Nat.bit (decide (b % 2 = 1)) (b / 2) := by
          rw [← ha, hbit]
      _ = Nat.bit (false || decide (b % 2 = 1)) ((a * 2 ^ k) ||| (b / 2)) :=
          Nat.lor_bit false (a * 2 ^ k) (decide (b % 2 = 1)) (b / 2)
      _ = Nat.bit (decide (b % 2 = 1)) (a * 2 ^ k + b / 2) := by
          rw [Bool.false_or, ih _ _ hdiv]
      _ = a * 2 ^ (k + 1) + b := by
          rw [Nat.bit_val]
          have htn : (decide (b % 2 = 1)).toNat = b % 2 := by
            rcases Nat.mod_two_eq_zero_or_one b with h | h <;> simp [h]
          have h2 : a * 2 ^ (k + 1) = 2 * (a * 2 ^ k) := by ring
          omega

/-- `(a <<< k) ||| b` as addition, the form the accumulator produces. -/
theorem shiftLeft_lor_eq_add {k a b : ℕ} (hb : b < 2 ^ k) :
    (a <<< k) ||| b = a * 2 ^ k + b := by
  rw [Nat.shiftLeft_eq]
  exact lor_mul_pow_eq_add k a b hb

/-! ### Single-write unfolding lemmas -/

/-- A write that leaves the accumulator short of 24 bits stores nothing. -/
theorem write_small {o : List ℕ} {cap by0 ca cb nbits val : ℕ}
    (h : cb + nbits < 24) :
    dspmem_chunk_write ⟨o, cap, by0, ca, cb⟩ nbits val =
      (⟨o, cap, by0, ((ca <<< nbits) ||| val) % 2 ^ 32, cb + nbits⟩, true) := by
  rw [dspmem_chunk_write, dspmem_chunk_write_go]
  dsimp only
  have hmin : min (24 - cb) nbits = nbits := by omega
  simp only [hmin]
  rw [if_neg (by omega)]
  simp

/-- A write that brings the accumulator to exactly 24 bits emits one 4-byte
word and resets, provided the cursor is not at capacity. -/
theorem write_fill {o : List ℕ} {cap by0 ca cb nbits val : ℕ}
    (h : cb + nbits = 24) (hnb : 0 < nbits) (hne : o.length ≠ cap) :
    dspmem_chunk_write ⟨o, cap, by0, ca, cb⟩ nbits val =
      (⟨o ++ emit4 (((ca <<< nbits) ||| val) % 2 ^ 24), cap, by0 + 4, 0, 0⟩,
       true) := by
  rw [dspmem_chunk_write, dspmem_chunk_write_go]
  dsimp only
  have hmin : min (24 - cb) nbits = nbits := by omega
  simp only [hmin]
  rw [if_pos (by omega)]
  rw [if_neg (by simpa [dspmem_chunk_end] using hne)]
  rw [if_neg (by omega)]
  have hmod : ∀ x : ℕ, x % 4294967296 % 16777216 = x % 16777216 := fun x =>
    Nat.mod_mod_of_dvd _ (by norm_num)
  simp [hmod]

/-- A write that overflows the 24-bit accumulator emits one word and
continues on the leftover bits. -/
theorem write_over {o : List ℕ} {cap by0 ca cb nbits val : ℕ}
    (h : 24 < cb + nbits) (hcb : cb ≤ 23) (hne : o.length ≠ cap) :
    dspmem_chunk_write ⟨o, cap, by0, ca, cb⟩ nbits val =
      dspmem_chunk_write
        ⟨o ++ emit4 (((ca <<< (24 - cb)) ||| (val >>> (nbits - (24 - cb)))) % 2 ^ 24),
         cap, by0 + 4, 0, 0⟩ (nbits - (24 - cb)) val := by
  rw [dspmem_chunk_write, dspmem_chunk_write_go]
  dsimp only
  have hmin : min (24 - cb) nbits = 24 - cb := by omega
  simp only [hmin]
  rw [if_pos (by omega)]
  rw [if_neg (by simpa [dspmem_chunk_end] using hne)]
  rw [if_pos (by omega)]
  rw [write_go_fuel_irrel _ _ _ _ (by simp only []; omega)]
  have hmod : ∀ x : ℕ, x % 4294967296 % 16777216 = x % 16777216 := fun x =>
    Nat.mod_mod_of_dvd _ (by norm_num)
  simp [hmod]


/-! ### Invariants of the PWLE token loop: the running `wlength` equals the
sum of the accepted time entries plus the wait once supplied -/


theorem feature_entry_wl {pw : WtPwle} {v : List Char} {pw' : WtPwle}
    (h : wt_type12_pwle_feature_entry pw v = .ok pw') :
    pw'.wlength = pw.wlength ∧ pw'.wait = pw.wait := by
  unfold wt_type12_pwle_feature_entry at h
  dsimp only [] at h
  split at h
  · exact absurd h (by simp)
  · cases h; exact ⟨rfl, rfl⟩

theorem repeat_entry_wl {pw : WtPwle} {v : List Char} {pw' : WtPwle}
    (h : wt_type12_pwle_repeat_entry pw v = .ok pw') :
    pw'.wlength = pw.wlength ∧ pw'.wait = pw.wait := by
  unfold wt_type12_pwle_repeat_entry at h
  dsimp only [] at h
  split at h
  · exact absurd h (by simp)
  · cases h; exact ⟨rfl, rfl⟩

theorem svc_mode_entry_wl {pw : WtPwle} {v : List Char} {pw' : WtPwle}
    (h : wt_type12_pwle_svc_mode_entry pw v = .ok pw') :
    pw'.wlength = pw.wlength ∧ pw'.wait = pw.wait := by
  unfold wt_type12_pwle_svc_mode_entry at h
  dsimp only [] at h
  split at h
  · exact absurd h (by simp)
  · split at h
    · cases h; exact ⟨rfl, rfl⟩
    · cases h; exact ⟨rfl, rfl⟩

theorem svc_braking_entry_wl {pw : WtPwle} {v : List Char} {pw' : WtPwle}
    (h : wt_type12_pwle_svc_braking_time_entry pw v = .ok pw') :
    pw'.wlength = pw.wlength ∧ pw'.wait = pw.wait := by
  unfold wt_type12_pwle_svc_braking_time_entry at h
  dsimp only [] at h
  split at h
  · exact absurd h (by simp)
  · cases h; exact ⟨rfl, rfl⟩

theorem ep_length_entry_never {pw : WtPwle} {v : List Char} {pw' : WtPwle}
    (h : wt_type12_pwle_ep_length_entry pw v = .ok pw') : False := by
  unfold wt_type12_pwle_ep_length_entry at h
  dsimp only [] at h
  split at h
  · simp at h
  · rename_i hc
    push_neg at hc
    omega

theorem ep_payload_entry_wl {pw : WtPwle} {v : List Char} {pw' : WtPwle}
    (h : wt_type12_pwle_ep_payload_entry pw v = .ok pw') :
    pw'.wlength = pw.wlength ∧ pw'.wait = pw.wait := by
  unfold wt_type12_pwle_ep_payload_entry at h
  dsimp only [] at h
  split at h
  · exact absurd h (by simp)
  · split at h
    · cases h; exact ⟨rfl, rfl⟩
    · cases h; exact ⟨rfl, rfl⟩

theorem ep_thresh_entry_wl {pw : WtPwle} {v : List Char} {pw' : WtPwle}
    (h : wt_type12_pwle_ep_threshold_entry pw v = .ok pw') :
    pw'.wlength = pw.wlength ∧ pw'.wait = pw.wait := by
  unfold wt_type12_pwle_ep_threshold_entry at h
  dsimp only [] at h
  split at h
  · exact absurd h (by simp)
  · cases h; exact ⟨rfl, rfl⟩

theorem wait_entry_wl {pw : WtPwle} {v : List Char} {pw' : WtPwle}
    (h : wt_type12_pwle_wait_time_entry pw v = .ok pw') :
    pw'.wlength = pw.wlength + pw'.wait := by
  unfold wt_type12_pwle_wait_time_entry at h
  dsimp only [] at h
  split at h
  · exact absurd h (by simp)
  · cases h; rfl

theorem pwleTokenCore_inv {st : PwleLoopSt} {key : List Char}
    {value : Option (List Char)} {st2 : PwleLoopSt}
    (h : pwleTokenCore st key value = .ok st2)
    (h1 : st.pw.wlength = st.gTimeSum + (if st.gWaitAdded then st.pw.wait else 0))
    (h2 : st.gWaitAdded = true → 4 ≤ st.numVals) :
    (st2.pw.wlength = st2.gTimeSum + (if st2.gWaitAdded then st2.pw.wait else 0)) ∧
    st2.numVals = st.numVals ∧
    (st2.gWaitAdded = true → st.gWaitAdded = true ∨ st.numVals = 3) := by
  unfold pwleTokenCore at h
  split at h
  all_goals (try (dsimp only [] at h))
  all_goals (repeat' split at h)
  all_goals (try (cases h))
  all_goals (try (dsimp only [] at h))
  all_goals (repeat' split at h)
  all_goals (try (cases h))
  -- cases leaving the struct untouched
  all_goals (try (exact ⟨h1, rfl, fun hw => Or.inl hw⟩))
  -- cases that only touch sections or booleans
  all_goals (try (refine ⟨?_, rfl, fun hw => Or.inl hw⟩ <;> simp [setPwleSec] <;> omega))
  -- the always-failing EM entry
  all_goals (try (rename_i hxs hsp hnv hx1 v1 hveq hx2 pw1 hent
                  exact (ep_length_entry_never hent).elim))
  -- header entries that do not touch wlength/wait
  all_goals (try (
    rename_i hxs hsp hnv hx1 v1 hveq hx2 pw1 hent
    have hq : pw1.wlength = st.pw.wlength ∧ pw1.wait = st.pw.wait := by
      first
      | exact feature_entry_wl hent
      | exact repeat_entry_wl hent
      | exact svc_mode_entry_wl hent
      | exact svc_braking_entry_wl hent
      | exact ep_payload_entry_wl hent
      | exact ep_thresh_entry_wl hent
    refine ⟨?_, rfl, fun hw => Or.inl hw⟩
    dsimp only
    rw [hq.1, hq.2]
    exact h1))
  -- the WT entry: wait is stored and added into wlength
  all_goals (try (
    rename_i hxs hsp hnv hx1 v1 hveq hx2 pw1 hent
    have hwl := wait_entry_wl hent
    have hnow : st.numVals = 3 := by omega
    have hga : st.gWaitAdded = false := by
      cases hgw : st.gWaitAdded
      · rfl
      · exact absurd (h2 hgw) (by omega)
    refine ⟨?_, rfl, fun hw => Or.inr hnow⟩
    dsimp only
    rw [hwl, h1, hga]
    simp))
  -- the T entry
  all_goals (try (
    rename_i hxs hsp chk st1 hchk hx1 v1 hveq hx2 val hveq2 hn
    have hfacts : st1.pw = st.pw ∧ st1.gTimeSum = st.gTimeSum ∧
        st1.gWaitAdded = st.gWaitAdded ∧ st1.numVals = st.numVals := by
      split at hchk
      · split at hchk
        · exact absurd hchk (by simp)
        · cases hchk; exact ⟨rfl, rfl, rfl, rfl⟩
      · cases hchk; exact ⟨rfl, rfl, rfl, rfl⟩
    obtain ⟨hp, hts, hgw, hnv2⟩ := hfacts
    refine ⟨?_, hnv2, fun hw => Or.inl (by rw [← hgw]; exact hw)⟩
    dsimp only [setPwleSec]
    rw [hp, hts, hgw]
    cases hb : st.gWaitAdded <;> simp [hb] at h1 ⊢ <;> omega))
  -- the V entry
  all_goals (try (
    rename_i hxs hsp p1res pw1 hp1
    have hfacts : pw1.wlength = st.pw.wlength ∧ pw1.wait = st.pw.wait := by
      split at hp1
      · repeat' split at hp1
        all_goals (try (cases hp1))
        all_goals (try (exact absurd hp1 (by simp)))
        all_goals (exact ⟨rfl, rfl⟩)
      · cases hp1; exact ⟨rfl, rfl⟩
    obtain ⟨hwl, hwt⟩ := hfacts
    refine ⟨?_, rfl, fun hw => Or.inl hw⟩
    dsimp only [setPwleSec]
    rw [hwl, hwt]
    exact h1))


/-- The invariant carried through the token loop: the accumulated `wlength`
is the ghost time sum plus the wait if a `WT` entry ran, and a `WT` entry can
only have run once at least four tokens were consumed. -/
def pwleLoopInv (st : PwleLoopSt) : Prop :=
  st.pw.wlength = st.gTimeSum + (if st.gWaitAdded then st.pw.wait else 0) ∧
  (st.gWaitAdded = true → 4 ≤ st.numVals)

theorem pwleTokenStep_inv {st : PwleLoopSt} {tok : List Char}
    {st' : PwleLoopSt} (h : pwleTokenStep st tok = .ok st')
    (hinv : pwleLoopInv st) : pwleLoopInv st' := by
  obtain ⟨h1, h2⟩ := hinv
  unfold pwleTokenStep at h
  split at h
  · exact absurd h (by simp)
  · split at h
    · exact absurd h (by simp)
    · rename_i st2 heq
      cases h
      obtain ⟨k1, k2, k3⟩ := pwleTokenCore_inv heq h1 h2
      refine ⟨k1, fun hw => ?_⟩
      rcases k3 hw with hga | hnv
      · have := h2 hga
        dsimp only
        omega
      · dsimp only
        omega

theorem pwleFold_inv : ∀ (toks : List (List Char)) {st st' : PwleLoopSt},
    toks.foldlM pwleTokenStep st = .ok st' → pwleLoopInv st →
    pwleLoopInv st' := by
  intro toks
  induction toks with
  | nil =>
    intro st st' h hinv
    simp only [List.foldlM_nil] at h
    cases h
    exact hinv
  | cons t ts ih =>
    intro st st' h hinv
    simp only [List.foldlM_cons] at h
    cases hstep : pwleTokenStep st t with
    | error e => simp [hstep, bind, Except.bind] at h
    | ok s1 =>
      simp only [hstep, bind, Except.bind] at h
      exact ih h (pwleTokenStep_inv hstep hinv)

/-- The total-length field of a successful PWLE compile, in closed form over
the trace: the end-of-loop `wlength` accumulator is exactly the sum of the
accepted non-indefinite time entries plus the wait when one was supplied,
and the final field applies `pwleWlengthFinal` to it. -/
theorem pwle_wlength_closed_form {g : WtPwle} {s : List Char} {r : PwleRes}
    (h : wt_type12_pwle_str_to_bin g s = .ok r) :
    r.pw.wlength =
      pwleWlengthFinal (r.gTimeSum + (if r.gWaitAdded then r.pw.wait else 0))
        r.pw.wait r.pw.repeats r.indef := by
  unfold wt_type12_pwle_str_to_bin at h
  dsimp only [] at h
  split at h
  · exact absurd h (by simp)
  · rename_i st hfold
    split at h
    · exact absurd h (by simp)
    · cases h
      have hinv : pwleLoopInv st := by
        apply pwleFold_inv _ hfold
        constructor
        · rfl
        · intro hw
          exact absurd hw (by simp [pwleInit])
      dsimp only [setPwleSec]
      rw [hinv.1]

/-! ### Word-level behaviour of aligned write sequences -/

theorem writeMany_append (ch : DspmemChunk) (xs ys : List (ℕ × ℕ)) :
    writeMany ch (xs ++ ys) = writeMany (writeMany ch xs) ys := by
  simp [writeMany, List.foldl_append]

theorem emit4_bytes {x y z : ℕ} (hx : x < 256) (hy : y < 256) (hz : z < 256) :
    emit4 (x * 65536 + y * 256 + z) = [0, x, y, z] := by
  simp only [emit4]
  norm_num
  refine ⟨by omega, by omega, by omega⟩

theorem emit4_8_16 {a d : ℕ} (ha : a < 256) (hd : d < 65536) :
    emit4 (a * 65536 + d) = [0, a, d / 256, d % 256] := by
  simp only [emit4]
  norm_num
  have h1 : (a * 65536 + d) / 65536 = a := by omega
  have h2 : (a * 65536 + d) / 256 % 256 = d / 256 := by omega
  have h3 : (a * 65536 + d) % 256 = d % 256 := by omega
  exact ⟨h1, h2, h3⟩

/-- A byte-sized write into an empty accumulator just caches the byte. -/
theorem write8_first {o : List ℕ} {cap by0 x : ℕ} (hx : x < 256) :
    dspmem_chunk_write ⟨o, cap, by0, 0, 0⟩ 8 x = (⟨o, cap, by0, x, 8⟩, true) := by
  rw [write_small (by omega)]
  have h1 : ((0 <<< 8) ||| x) % 2 ^ 32 = x := by
    rw [Nat.zero_shiftLeft]
    have h0 : (0 : ℕ) ||| x = x := Nat.zero_or x
    rw [h0]
    exact Nat.mod_eq_of_lt (by omega)
  rw [h1]

/-- Three byte-sized writes into an empty accumulator store one word:
a pad byte followed by the three bytes in order. -/
theorem word3 {o : List ℕ} {cap by0 x y z : ℕ}
    (hx : x < 256) (hy : y < 256) (hz : z < 256) (hne : o.length ≠ cap) :
    writeMany ⟨o, cap, by0, 0, 0⟩ [(8, x), (8, y), (8, z)] =
      ⟨o ++ [0, x, y, z], cap, by0 + 4, 0, 0⟩ := by
  have e2 : dspmem_chunk_write ⟨o, cap, by0, x, 8⟩ 8 y =
      (⟨o, cap, by0, x * 256 + y, 16⟩, true) := by
    rw [write_small (by omega)]
    have h2 : ((x <<< 8) ||| y) % 2 ^ 32 = x * 256 + y := by
      rw [shiftLeft_lor_eq_add (show y < 2 ^ 8 by omega)]
      rw [Nat.mod_eq_of_lt (show x * 2 ^ 8 + y < 2 ^ 32 by omega)]
      ring
    rw [h2]
  have e3 : dspmem_chunk_write ⟨o, cap, by0, x * 256 + y, 16⟩ 8 z =
      (⟨o ++ [0, x, y, z], cap, by0 + 4, 0, 0⟩, true) := by
    rw [write_fill (by omega) (by omega) hne]
    have h3 : (((x * 256 + y) <<< 8) ||| z) % 2 ^ 24 = x * 65536 + y * 256 + z := by
      rw [shiftLeft_lor_eq_add (show z < 2 ^ 8 by omega)]
      rw [Nat.mod_eq_of_lt (show (x * 256 + y) * 2 ^ 8 + z < 2 ^ 24 by omega)]
      ring
    rw [h3, emit4_bytes hx hy hz]
  simp only [writeMany, List.foldl_cons, List.foldl_nil, write8_first hx, e2, e3]

/-- A byte write followed by a 16-bit write into an empty accumulator. -/
theorem word_8_16 {o : List ℕ} {cap by0 a d : ℕ}
    (ha : a < 256) (hd : d < 65536) (hne : o.length ≠ cap) :
    writeMany ⟨o, cap, by0, 0, 0⟩ [(8, a), (16, d)] =
      ⟨o ++ [0, a, d / 256, d % 256], cap, by0 + 4, 0, 0⟩ := by
  have e2 : dspmem_chunk_write ⟨o, cap, by0, a, 8⟩ 16 d =
      (⟨o ++ [0, a, d / 256, d % 256], cap, by0 + 4, 0, 0⟩, true) := by
    rw [write_fill (by omega) (by omega) hne]
    have h2 : ((a <<< 16) ||| d) % 2 ^ 24 = a * 65536 + d := by
      rw [shiftLeft_lor_eq_add (show d < 2 ^ 16 by omega)]
      rw [Nat.mod_eq_of_lt (show a * 2 ^ 16 + d < 2 ^ 24 by omega)]
      ring
    rw [h2, emit4_8_16 ha hd]
  simp only [writeMany, List.foldl_cons, List.foldl_nil, write8_first ha, e2]

/-- A 24-bit write into an empty accumulator. -/
theorem word24 {o : List ℕ} {cap by0 v : ℕ}
    (hv : v < 2 ^ 24) (hne : o.length ≠ cap) :
    writeMany ⟨o, cap, by0, 0, 0⟩ [(24, v)] =
      ⟨o ++ [0, v / 65536, v / 256 % 256, v % 256], cap, by0 + 4, 0, 0⟩ := by
  have e1 : dspmem_chunk_write ⟨o, cap, by0, 0, 0⟩ 24 v =
      (⟨o ++ [0, v / 65536, v / 256 % 256, v % 256], cap, by0 + 4, 0, 0⟩, true) := by
    rw [write_fill (by omega) (by omega) hne]
    have h1 : ((0 <<< 24) ||| v) % 2 ^ 24 = v := by
      rw [Nat.zero_shiftLeft]
      have h0 : (0 : ℕ) ||| v = v := Nat.zero_or v
      rw [h0]
      exact Nat.mod_eq_of_lt hv
    rw [h1]
    simp [emit4]
  simp only [writeMany, List.foldl_cons, List.foldl_nil, e1]

/-! ### The byte image of the composite encoder -/

/-- The bytes one composite section occupies in the output buffer: each
24-bit word goes out as a zero pad plus three payload bytes, so a section is
`[0, amplitude, index, repeat, 0, flags, delay-hi, delay-lo]` plus
`[0, 0, duration-hi, duration-lo]` when the duration flag (0x80) is set. -/
def secOutBytes (s : CompSection) : List ℕ :=
  [0, s.wvfrm.amplitude, s.wvfrm.index, s.repeats,
   0, s.flags, s.delay / 256, s.delay % 256]
  ++ (if s.flags &&& 0x80 ≠ 0 then
        [0, 0, s.wvfrm.duration / 256, s.wvfrm.duration % 256] else [])

/-- Field ranges the C struct types (`uint8_t`/`uint16_t`) guarantee. -/
def secInRange (s : CompSection) : Prop :=
  s.wvfrm.amplitude < 256 ∧ s.wvfrm.index < 256 ∧ s.repeats < 256 ∧
  s.flags < 256 ∧ s.delay < 65536 ∧ s.wvfrm.duration < 65536

instance (s : CompSection) : Decidable (secInRange s) := by
  unfold secInRange
  infer_instance

theorem secOutBytes_length (s : CompSection) :
    (secOutBytes s).length = if s.flags &&& 0x80 ≠ 0 then 12 else 8 := by
  by_cases h : s.flags &&& 0x80 ≠ 0 <;> simp [secOutBytes, h]

/-- Encoding one section from a word-aligned writer state. -/
theorem writeMany_sec (s : CompSection) (hr : secInRange s)
    {o : List ℕ} {by0 cap : ℕ}
    (hcap : o.length + (secOutBytes s).length ≤ cap) :
    writeMany ⟨o, cap, by0, 0, 0⟩ (compSectionWrites s) =
      ⟨o ++ secOutBytes s, cap, by0 + (secOutBytes s).length, 0, 0⟩ := by
  obtain ⟨h1, h2, h3, h4, h5, h6⟩ := hr
  have hsplit : compSectionWrites s =
      [(8, s.wvfrm.amplitude), (8, s.wvfrm.index), (8, s.repeats)] ++
      ([(8, s.flags), (16, s.delay)] ++
       (if s.flags &&& 0x80 ≠ 0 then [(8, 0), (16, s.wvfrm.duration)] else [])) := by
    simp [compSectionWrites]
  rw [hsplit, writeMany_append, writeMany_append]
  have hlen : (secOutBytes s).length = if s.flags &&& 0x80 ≠ 0 then 12 else 8 :=
    secOutBytes_length s
  by_cases hdur : s.flags &&& 0x80 ≠ 0
  · rw [hlen, if_pos hdur] at hcap
    rw [word3 h1 h2 h3 (by omega)]
    rw [word_8_16 h4 h5 (by simp; omega)]
    rw [if_pos hdur, word_8_16 (by omega) h6 (by simp; omega)]
    simp [secOutBytes, if_pos hdur, hlen]
  · rw [hlen, if_neg hdur] at hcap
    rw [word3 h1 h2 h3 (by omega)]
    rw [word_8_16 h4 h5 (by simp; omega)]
    rw [if_neg hdur]
    simp only [writeMany, List.foldl_nil]
    simp [secOutBytes, if_neg hdur, hlen]

/-- Encoding a list of sections from a word-aligned writer state. -/
theorem writeMany_secList : ∀ (l : List CompSection) {o : List ℕ} {by0 cap : ℕ},
    (∀ s ∈ l, secInRange s) →
    o.length + (l.flatMap secOutBytes).length ≤ cap →
    writeMany ⟨o, cap, by0, 0, 0⟩ (l.flatMap compSectionWrites) =
      ⟨o ++ l.flatMap secOutBytes, cap,
       by0 + (l.flatMap secOutBytes).length, 0, 0⟩ := by
  intro l
  induction l with
  | nil => intro o by0 cap _ _; simp [writeMany]
  | cons s t ih =>
    intro o by0 cap hr hcap
    have hs : secInRange s := hr s (by simp)
    have ht : ∀ x ∈ t, secInRange x := fun x hx => hr x (by simp [hx])
    simp only [List.flatMap_cons] at hcap ⊢
    rw [writeMany_append]
    have hcap1 : o.length + (secOutBytes s).length ≤ cap := by
      simp [List.length_append] at hcap ⊢
      omega
    rw [writeMany_sec s hs hcap1]
    have hcap2 : (o ++ secOutBytes s).length +
        (t.flatMap secOutBytes).length ≤ cap := by
      simp [List.length_append] at hcap ⊢
      omega
    rw [ih ht hcap2]
    simp [List.length_append, List.append_assoc]
    omega

/-- The whole byte image `wt_type10_comp_to_buffer` stores: the EP metadata
words (when stamped), the pad/count/repeat word, then the sections. -/
def compOutBytes (c : WtComp) : List ℕ :=
  (if c.ep.id = 2 then
    [0, c.ep.id, c.ep.length, c.ep.payload,
     0, c.ep.custom_threshold / 65536, c.ep.custom_threshold / 256 % 256,
     c.ep.custom_threshold % 256]
   else [])
  ++ [0, 0, c.nsections, c.repeats]
  ++ (List.range c.nsections).flatMap (fun i => secOutBytes (c.sections i))

/-- Number of sections with the duration flag set. -/
def durCount (c : WtComp) : ℕ :=
  ((List.range c.nsections).filter
    (fun i => (c.sections i).flags &&& 0x80 ≠ 0)).length

theorem flatMap_secOutBytes_length (l : List CompSection) :
    (l.flatMap secOutBytes).length =
      8 * l.length + 4 * (l.filter (fun s => s.flags &&& 0x80 ≠ 0)).length := by
  induction l with
  | nil => simp
  | cons s t ih =>
    by_cases h : s.flags &&& 0x80 ≠ 0 <;>
      simp [List.flatMap_cons, List.length_append, secOutBytes_length, h, ih,
            List.filter_cons] <;> omega

/-- `wt_type10_comp_to_buffer` stores exactly `compOutBytes` and reports its
length, for any struct whose fields respect their C types and whose encoding
fits the buffer. -/
theorem comp_to_buffer_spec (c : WtComp) (cap : ℕ)
    (hns : c.nsections < 256) (hrep : c.repeats < 256)
    (hep : c.ep.id = 2 → c.ep.length < 256 ∧ c.ep.payload < 256 ∧
           c.ep.custom_threshold < 2 ^ 24)
    (hsec : ∀ i < c.nsections, secInRange (c.sections i))
    (hfit : (compOutBytes c).length ≤ cap) :
    wt_type10_comp_to_buffer c cap = ((compOutBytes c).length, compOutBytes c) := by
  have hmap : (List.range c.nsections).flatMap (fun i => compSectionWrites (c.sections i)) =
      ((List.range c.nsections).map c.sections).flatMap compSectionWrites := by
    rw [List.flatMap_map]
  have hmapB : (List.range c.nsections).flatMap (fun i => secOutBytes (c.sections i)) =
      ((List.range c.nsections).map c.sections).flatMap secOutBytes := by
    rw [List.flatMap_map]
  have hsecL : ∀ s ∈ (List.range c.nsections).map c.sections, secInRange s := by
    intro s hsmem
    obtain ⟨i, hi, rfl⟩ := List.mem_map.mp hsmem
    exact hsec i (List.mem_range.mp hi)
  by_cases hid : c.ep.id = 2
  · obtain ⟨hl, hp, ht⟩ := hep hid
    have hout : compOutBytes c =
        [0, c.ep.id, c.ep.length, c.ep.payload,
         0, c.ep.custom_threshold / 65536, c.ep.custom_threshold / 256 % 256,
         c.ep.custom_threshold % 256]
        ++ [0, 0, c.nsections, c.repeats]
        ++ ((List.range c.nsections).map c.sections).flatMap secOutBytes := by
      rw [compOutBytes, if_pos hid, hmapB]
    rw [hout] at hfit ⊢
    have hw : compWrites c =
        [(8, c.ep.id), (8, c.ep.length), (8, c.ep.payload)]
        ++ ([(24, c.ep.custom_threshold)]
        ++ ([(8, 0), (8, c.nsections), (8, c.repeats)]
        ++ ((List.range c.nsections).map c.sections).flatMap compSectionWrites)) := by
      rw [compWrites, if_pos hid, hmap]
      simp
    simp only [List.length_append, List.length_cons, List.length_nil] at hfit
    rw [wt_type10_comp_to_buffer, hw, writeMany_append, writeMany_append,
        writeMany_append]
    rw [show dspmem_chunk_create cap = ⟨[], cap, 0, 0, 0⟩ from rfl]
    rw [word3 (by rw [hid]; omega) hl hp
        (by simp only [List.length_nil]; omega)]
    rw [word24 ht
        (by simp only [List.length_append, List.length_cons, List.length_nil]; omega)]
    rw [word3 (by omega) hns hrep
        (by simp only [List.length_append, List.length_cons, List.length_nil]; omega)]
    rw [writeMany_secList _ hsecL
        (by simp only [List.length_append, List.length_cons, List.length_nil]; omega)]
    simp only [dspmem_chunk_bytes, Prod.mk.injEq]
    refine ⟨?_, ?_⟩
    · simp only [List.length_append, List.length_cons, List.length_nil]
    · simp [List.append_assoc, hid]
  · have hout : compOutBytes c =
        [0, 0, c.nsections, c.repeats]
        ++ ((List.range c.nsections).map c.sections).flatMap secOutBytes := by
      rw [compOutBytes, if_neg hid, hmapB]
      simp
    rw [hout] at hfit ⊢
    have hw : compWrites c =
        [(8, 0), (8, c.nsections), (8, c.repeats)]
        ++ ((List.range c.nsections).map c.sections).flatMap compSectionWrites := by
      rw [compWrites, if_neg hid, hmap]
      simp
    simp only [List.length_append, List.length_cons, List.length_nil] at hfit
    rw [wt_type10_comp_to_buffer, hw, writeMany_append]
    rw [show dspmem_chunk_create cap = ⟨[], cap, 0, 0, 0⟩ from rfl]
    rw [word3 (by omega) hns hrep
        (by simp only [List.length_nil]; omega)]
    rw [writeMany_secList _ hsecL
        (by simp only [List.length_append, List.length_cons, List.length_nil]; omega)]
    simp only [dspmem_chunk_bytes, Prod.mk.injEq]
    refine ⟨?_, ?_⟩
    · simp only [List.length_append, List.length_cons, List.length_nil]
    · simp [List.append_assoc]

/-- The output length as the word-count formula of the encoder: one header
word, two words per section, one extra word per duration-flagged section,
and two words of EP metadata when present — 4 bytes each. -/
theorem compOutBytes_length_formula (c : WtComp) :
    (compOutBytes c).length =
      4 * (1 + 2 * c.nsections + durCount c + (if c.ep.id = 2 then 2 else 0)) := by
  have hmapB : (List.range c.nsections).flatMap (fun i => secOutBytes (c.sections i)) =
      ((List.range c.nsections).map c.sections).flatMap secOutBytes := by
    rw [List.flatMap_map]
  have hflatlen := flatMap_secOutBytes_length
    ((List.range c.nsections).map c.sections)
  have hfilter : (((List.range c.nsections).map c.sections).filter
      (fun s => s.flags &&& 0x80 ≠ 0)).length = durCount c := by
    rw [durCount, ← List.countP_eq_length_filter, ← List.countP_eq_length_filter,
        List.countP_map]
    rfl
  have hlenmap : ((List.range c.nsections).map c.sections).length = c.nsections := by
    simp
  rw [hlenmap, hfilter] at hflatlen
  by_cases hid : c.ep.id = 2
  · rw [compOutBytes, if_pos hid, hmapB, if_pos hid]
    simp only [List.length_append, List.length_cons, List.length_nil]
    omega
  · rw [compOutBytes, if_neg hid, hmapB, if_neg hid]
    simp only [List.nil_append, List.length_append, List.length_cons,
               List.length_nil]
    omega

/-! ### Definitions modelled from the specification text (used only to
compare the spec's wording against the code) -/

/-- Modelled from the spec (§8): "output length in bytes = 3 (header) +
3×sectionCount + 3×(count of sections with duration) [+4 if EP metadata
present]". -/
def specCompByteCount (nsections ndur : ℕ) (ep : Bool) : ℕ :=
  3 + 3 * nsections + 3 * ndur + (if ep then 4 else 0)

/-- Modelled from the spec (§4.3): "sum of per-section times (excluding
indefinite-marked sections), multiplied by (repeat+1), minus wait, then
doubled; the indefinite-length bit OR'd in if any section used the
indefinite sentinel; a length-calculated tag bit always set". -/
def specPwleWlength (sumTimes wait repeats : ℕ) (indef : Bool) : ℕ :=
  ((sumTimes * (repeats + 1) - wait) * 2)
    ||| (if indef then 0x400000 else 0) ||| 0x800000

/-- Modelled from the spec (§4.4): the first non-whitespace character, on
which the spec says the dispatcher decides. -/
def specFirstNonWs (s : List Char) : Option Char :=
  (s.dropWhile cIsSpace).head?

/-! ### Projections for stating concrete runs -/

/-- Byte count of a composite compile, when it succeeded. -/
def compResBytes : Except Unit CompRes → Option ℕ
  | .ok r => some r.bytes
  | .error _ => none

/-- Outer repeat of a composite compile, when it succeeded. -/
def compResRepeats : Except Unit CompRes → Option ℕ
  | .ok r => some r.comp.repeats
  | .error _ => none

/-- Final `wlength` of a PWLE compile, when it succeeded. -/
def pwleResWlength : Except Unit PwleRes → Option ℕ
  | .ok r => some r.pw.wlength
  | .error _ => none

/-- One arbitrary concrete choice for the uninitialized `bank[4]` residue. -/
def bankX : List Char := "XXX".toList

/-! ## Claim C1 — bitstream writer emission

The claim says a full accumulator emits exactly 3 bytes and the cursor
advances by 3.  The emission loop of `dspmem_chunk_write` iterates
`sizeof(ch->cache)` = 4 times: it stores a zero pad byte followed by the
three bytes of the 24 accumulated bits, and `bytes`/`data` advance by 4. -/

/-- C1 counterexample: writing 24 bits 0xABCDEF into a fresh chunk stores
FOUR bytes `[0x00, 0xAB, 0xCD, 0xEF]` and advances the count to 4 — not the
three bytes `[0xAB, 0xCD, 0xEF]` the claim asserts. -/
theorem c1_three_byte_emission_refuted :
    (dspmem_chunk_write (dspmem_chunk_create 8) 24 0xABCDEF).1.out =
      [0x00, 0xAB, 0xCD, 0xEF] ∧
    (dspmem_chunk_write (dspmem_chunk_create 8) 24 0xABCDEF).1.bytes = 4 ∧
    (dspmem_chunk_write (dspmem_chunk_create 8) 24 0xABCDEF).1.bytes ≠ 3 ∧
    (dspmem_chunk_write (dspmem_chunk_create 8) 24 0xABCDEF).1.out ≠
      [0xAB, 0xCD, 0xEF] := by
  decide

/-- C1 (amended): whenever a write fills the 24-bit accumulator exactly and
the cursor is not at capacity, the writer emits exactly FOUR bytes — a zero
pad then the 24 accumulated bits MSB-first — resets the accumulator to 0
pending bits, advances the byte count by 4, and iterates on any remaining
bits of the value. -/
theorem c1_full_accumulator_emits_four_bytes (ch : DspmemChunk)
    (nbits val : ℕ) (hcb : ch.cachebits ≤ 23)
    (hfill : 24 ≤ ch.cachebits + nbits) (hne : ch.out.length ≠ ch.cap) :
    (ch.cachebits + nbits = 24 →
      dspmem_chunk_write ch nbits val =
        (⟨ch.out ++ emit4 (((ch.cache <<< (24 - ch.cachebits)) |||
            (val >>> (nbits - (24 - ch.cachebits)))) % 2 ^ 24),
          ch.cap, ch.bytes + 4, 0, 0⟩, true)) ∧
    (24 < ch.cachebits + nbits →
      dspmem_chunk_write ch nbits val =
        dspmem_chunk_write
          ⟨ch.out ++ emit4 (((ch.cache <<< (24 - ch.cachebits)) |||
              (val >>> (nbits - (24 - ch.cachebits)))) % 2 ^ 24),
           ch.cap, ch.bytes + 4, 0, 0⟩ (nbits - (24 - ch.cachebits)) val) ∧
    emit4 (((ch.cache <<< (24 - ch.cachebits)) |||
        (val >>> (nbits - (24 - ch.cachebits)))) % 2 ^ 24) =
      [0, (((ch.cache <<< (24 - ch.cachebits)) |||
            (val >>> (nbits - (24 - ch.cachebits)))) % 2 ^ 24) / 2 ^ 16,
          (((ch.cache <<< (24 - ch.cachebits)) |||
            (val >>> (nbits - (24 - ch.cachebits)))) % 2 ^ 24) / 2 ^ 8 % 2 ^ 8,
          (((ch.cache <<< (24 - ch.cachebits)) |||
            (val >>> (nbits - (24 - ch.cachebits)))) % 2 ^ 24) % 2 ^ 8] := by
  obtain ⟨o, cap, by0, ca, cb⟩ := ch
  refine ⟨?_, ?_, rfl⟩
  · intro h24
    simp only at h24 hcb hne ⊢
    have hnb : nbits = 24 - cb := by omega
    subst hnb
    rw [write_fill (by omega) (by omega) hne]
    simp
  · intro hover
    simp only at hover hcb hne ⊢
    rw [write_over (by omega) (by omega) hne]

/-- Witness for C1: the amended theorem applied at a fresh 8-byte chunk and
a 24-bit write of 0xABCDEF. -/
theorem c1_full_accumulator_emits_four_bytes_witness :
    dspmem_chunk_write (dspmem_chunk_create 8) 24 0xABCDEF =
      (⟨[0x00, 0xAB, 0xCD, 0xEF], 8, 4, 0, 0⟩, true) := by
  have h := (c1_full_accumulator_emits_four_bytes (dspmem_chunk_create 8)
    24 0xABCDEF (by decide) (by decide) (by decide)).1 (by decide)
  rw [h]
  decide

/-! ## Claim C3 — no write past capacity

The claim (and §5 of the spec) demand that a write whose emission would
exceed the capacity fails with a capacity error and stores nothing past the
end.  The code's only guard is `dspmem_chunk_end`, i.e. `data == max`
exactly; when 1–3 bytes remain the guard does not fire and the 4-byte
emission runs past `max`.  With the PWLE buffer size 2302 (not a multiple of
4), a long enough compile walks the cursor from 2300 past 2302 without ever
hitting the guard. -/

/-- C3: a 24-bit write into a chunk over a 2-byte buffer *succeeds* (returns
0, not -ENOSPC) and stores 4 bytes, two past the end of the buffer. -/
theorem c3_capacity_guard_misses_overrun :
    (dspmem_chunk_write (dspmem_chunk_create 2) 24 0xABCDEF).2 = true ∧
    (dspmem_chunk_write (dspmem_chunk_create 2) 24 0xABCDEF).1.out.length = 4 ∧
    (dspmem_chunk_write (dspmem_chunk_create 2) 24 0xABCDEF).1.cap = 2 ∧
    2 < (dspmem_chunk_write (dspmem_chunk_create 2) 24 0xABCDEF).1.out.length := by
  decide

/-! ## Claim C2 — composite output size and field encoding

Each 24-bit word goes to the buffer as FOUR bytes (zero pad + 3 payload), so
the claimed `3 + 3·n + 3·d (+4)` byte count is wrong: the code produces
`4·(1 + 2·n + d + 2·e)` bytes.  The per-section fields do appear verbatim in
the output, which the amended theorem exhibits. -/

/-- Number of sections of a composite compile, when it succeeded. -/
def compResNsections : Except Unit CompRes → Option ℕ
  | .ok r => some r.comp.nsections
  | .error _ => none

/-- The composite input of the C2 counterexample: one waveform plus one
delay, a single section, no durations, no EP metadata. -/
def inputC2 : List Char := "1.100, 500".toList

/-- C2 counterexample: `"1.100, 500"` compiles to ONE section and 12 bytes,
while the claimed formula gives 3 + 3·1 = 6. -/
theorem c2_byte_count_refuted :
    compResNsections (wt_type10_comp_str_to_bin bankX inputC2) = some 1 ∧
    compResBytes (wt_type10_comp_str_to_bin bankX inputC2) = some 12 ∧
    specCompByteCount 1 0 false = 6 ∧
    (12 : ℕ) ≠ specCompByteCount 1 0 false := by
  refine ⟨rfl, rfl, rfl, by decide⟩

/-- C2 (amended): for every composite struct whose fields respect their C
types and whose image fits the buffer, the encoder stores exactly
`compOutBytes` — in which every per-section field (amplitude, index,
inner-repeat, flags, delay, duration) appears verbatim — and reports
`4·(1 + 2·sectionCount + durationCount + 2·[EP present])` bytes. -/
theorem c2_byte_count_and_fields (c : WtComp) (cap : ℕ)
    (hns : c.nsections < 256) (hrep : c.repeats < 256)
    (hep : c.ep.id = 2 → c.ep.length < 256 ∧ c.ep.payload < 256 ∧
           c.ep.custom_threshold < 2 ^ 24)
    (hsec : ∀ i < c.nsections, secInRange (c.sections i))
    (hfit : (compOutBytes c).length ≤ cap) :
    wt_type10_comp_to_buffer c cap = ((compOutBytes c).length, compOutBytes c) ∧
    (compOutBytes c).length =
      4 * (1 + 2 * c.nsections + durCount c + (if c.ep.id = 2 then 2 else 0)) :=
  ⟨comp_to_buffer_spec c cap hns hrep hep hsec hfit,
   compOutBytes_length_formula c⟩

/-- A one-section composite struct (as produced from `"1.100, 500"`). -/
def c2w : WtComp :=
  setSec { compZero with nsections := 1 } 0
    { repeats := 0, flags := 0, delay := 500,
      wvfrm := { index := 1, amplitude := 100, duration := 0 } }

/-- Witness for C2: the amended theorem applied at a concrete struct. -/
theorem c2_byte_count_and_fields_witness :
    wt_type10_comp_to_buffer c2w 1152 =
      ((compOutBytes c2w).length, compOutBytes c2w) ∧
    (compOutBytes c2w).length =
      4 * (1 + 2 * c2w.nsections + durCount c2w +
           (if c2w.ep.id = 2 then 2 else 0)) :=
  c2_byte_count_and_fields c2w 1152 (by decide) (by decide) (by decide)
    (by decide) (by decide)

/-! ## Claim C4 — the PWLE total-length formula

The code adds the wait into the running `wlength` *before* the
multiplication by `repeat + 1` (`wt_type12_pwle_wait_time_entry` does
`pwle->wlength += pwle->wait`), so the total is
`((Σtimes + wait)·(repeat+1) − wait)·2`, not the claimed
`(Σtimes·(repeat+1) − wait)·2`. -/

/-- Trace fields of a PWLE compile: accepted time sum, wait, repeat, indef. -/
def pwleResTrace : Except Unit PwleRes → Option (ℕ × ℕ × ℕ × Bool)
  | .ok r => some (r.gTimeSum, r.pw.wait, r.pw.repeats, r.indef)
  | .error _ => none

/-- A small valid PWLE input with a nonzero wait: times 0 ms and 100 ms
(raw 0 and 400), wait 1 ms (raw 4), repeat 1. -/
def inputC4 : List Char :=
  ("S:0,WF:0,RP:1,WT:1,T0:0,L0:0,F0:100,C0:0,B0:0,AR0:0,R0:0,V0:0," ++
   "T1:100,L1:0,F1:100,C1:0,B1:0,AR1:0,R1:0,V1:0").toList

/-- C4 counterexample: on `inputC4` the code computes
`((400 + 4)·2 − 4)·2 ∣ 0x800000 = 8390216`, while the claimed formula gives
`(400·2 − 4)·2 ∣ 0x800000 = 8390200`. -/
theorem c4_wlength_formula_refuted :
    pwleResTrace (wt_type12_pwle_str_to_bin pwleZero inputC4) =
      some (400, 4, 1, false) ∧
    pwleResWlength (wt_type12_pwle_str_to_bin pwleZero inputC4) =
      some 8390216 ∧
    specPwleWlength 400 4 1 false = 8390200 ∧
    (8390216 : ℕ) ≠ specPwleWlength 400 4 1 false := by
  refine ⟨rfl, rfl, rfl, by decide⟩

/-- C4 (amended): for every successful PWLE compile, the 24-bit-emitted
total-length field equals `pwleWlengthFinal` — 32-bit arithmetic of
`((Σ accepted-times + wait-if-supplied)·(repeat+1) − wait)·2` — with the
indefinite bit OR'd in exactly when some accepted time entry was the 65535
sentinel, and the length-calculated bit always OR'd in. -/
theorem c4_wlength_code_formula (g : WtPwle) (s : List Char) (r : PwleRes)
    (h : wt_type12_pwle_str_to_bin g s = .ok r) :
    r.pw.wlength =
      pwleWlengthFinal (r.gTimeSum + (if r.gWaitAdded then r.pw.wait else 0))
        r.pw.wait r.pw.repeats r.indef :=
  pwle_wlength_closed_form h

/-- The result record of compiling `inputC4` from a zero residue. -/
def c4res : PwleRes :=
  (wt_type12_pwle_str_to_bin pwleZero inputC4).toOption.getD
    ⟨0, [], pwleZero, false, 0, 0, false⟩

/-- Witness for C4: the amended theorem applied at `inputC4`. -/
theorem c4_wlength_code_formula_witness :
    wt_type12_pwle_str_to_bin pwleZero inputC4 = .ok c4res ∧
    c4res.pw.wlength =
      pwleWlengthFinal (c4res.gTimeSum +
          (if c4res.gWaitAdded then c4res.pw.wait else 0))
        c4res.pw.wait c4res.pw.repeats c4res.indef :=
  ⟨rfl, c4_wlength_code_formula pwleZero inputC4 c4res rfl⟩

/-! ## Claim C5 — scenario B

The 2023 parser requires the relative-frequency entry `R#`: the final
completeness check tests the `r` flag, which only an `R` token sets, and
`section->frequency` is only assigned when the `R` token arrives.  The
scenario string of the claim (and spec §8) carries no `R` tokens, so it is
rejected.  With the `R0:0`/`R1:0` entries of the library's own usage example
added, everything else the claim states checks out. -/

/-- The scenario B string exactly as claimed (no `R#` entries). -/
def inputC5 : List Char :=
  ("S:0,WF:8,RP:1,WT:399.5,T0:0,L0:0.49152,F0:200,C0:0,B0:0,AR0:0,V0:0," ++
   "T1:400,L1:0.49152,F1:200,C1:0,B1:0,AR1:1,V1:0.022").toList

/-- Scenario B augmented with the mandatory `R0:0`/`R1:0` entries. -/
def inputC5R : List Char :=
  ("S:0,WF:8,RP:1,WT:399.5,T0:0,L0:0.49152,F0:200,C0:0,B0:0,AR0:0,R0:0,V0:0," ++
   "T1:400,L1:0.49152,F1:200,C1:0,B1:0,AR1:1,R1:0,V1:0.022").toList

/-- C5 counterexample: the claim's exact input string fails to compile
(`-EINVAL` from the final completeness check — `r` was never set). -/
theorem c5_scenario_b_refuted :
    wt_type12_pwle_str_to_bin pwleZero inputC5 = .error () := rfl

/-- C5 (amended): with `R0:0`/`R1:0` added, the compile succeeds (from a
zeroed stack residue), with exactly 2 sections, repeat 1, wait raw 1598, and
section 1 vbtarget raw `round(0.022 × 8388607) = 184549`. -/
theorem c5_scenario_b_with_r :
    ∃ r, wt_type12_pwle_str_to_bin pwleZero inputC5R = .ok r ∧
      r.pw.nsections = 2 ∧ r.pw.repeats = 1 ∧ r.pw.wait = 1598 ∧
      (r.pw.sections 1).vbtarget = 184549 :=
  ⟨_, rfl, rfl, rfl, rfl, rfl⟩

/-! ## Claim C6 — dispatcher discriminant

`get_owt_data` tests `full_str[0] == 'S'` — the literal first character,
not the first non-whitespace character. -/

/-- C6 counterexample: `" S:0"` starts (after whitespace) with `'S'`, but
the dispatcher routes it to the Composite compiler. -/
theorem c6_first_nonws_refuted :
    routesToPwle " S:0".toList = false ∧
    specFirstNonWs " S:0".toList = some 'S' := by
  decide

/-- C6 (amended): the dispatcher routes to the PWLE compiler iff the literal
first character of the input is `'S'` (no whitespace skipping), and every
other input — including the empty string — goes to the Composite compiler;
nothing else affects the decision. -/
theorem c6_dispatch_on_first_char (g : WtPwle) (b : List Char)
    (s : List Char) :
    (routesToPwle s = true ↔ s.head? = some 'S') ∧
    get_owt_data g b s =
      (if routesToPwle s then
        (wt_type12_pwle_str_to_bin g s).map (fun r => (r.bytes, r.out))
       else
        (wt_type10_comp_str_to_bin b s).map (fun r => (r.bytes, r.out))) := by
  refine ⟨?_, rfl⟩
  cases s with
  | nil => simp [routesToPwle]
  | cons c t => simp [routesToPwle]

/-! ## Claim C7 — loop repeat count range

Neither `COMP_SPEC_OUTER_LOOP_REPETITION` nor `COMP_SPEC_INNER_LOOP_STOP`
checks an upper bound: `strtoul` result 0 is rejected, every nonzero count
is accepted and stored as its low 8 bits. -/

/-- C7 counterexample: `"1.100,33!"` compiles successfully with outer repeat
33, which the claim says must be rejected (> 32). -/
theorem c7_range_refuted :
    compResRepeats (wt_type10_comp_str_to_bin bankX "1.100,33!".toList) =
      some 33 ∧
    32 < 33 := by
  refine ⟨rfl, by decide⟩

/-- C7 (amended): a loop-count token with numeric prefix 0 is rejected for
both the finite outer-loop marker and the inner-loop stop; ANY nonzero
prefix is accepted — there is no upper bound — and stored modulo 256. -/
theorem c7_loop_count_validation (b : List Char) (comp : WtComp)
    (s : List Char) (hrep0 : comp.repeats = 0)
    (hloop : comp.inner_loop = true) :
    (strtoulModel (s.takeWhile (fun ch => ch ≠ '!')) = 0 →
      wt_type10_comp_decode b comp .outerLoopRepetition s = .error () ∧
      wt_type10_comp_decode b comp .innerLoopStop s = .error ()) ∧
    (∀ k : ℕ, strtoulModel (s.takeWhile (fun ch => ch ≠ '!')) = k → k ≠ 0 →
      wt_type10_comp_decode b comp .outerLoopRepetition s =
        .ok { comp with repeats := k % 2 ^ 8 } ∧
      wt_type10_comp_decode b comp .innerLoopStop s =
        .ok { (setSec comp comp.nsections
                { comp.sections comp.nsections with repeats := k % 2 ^ 8 })
              with inner_loop := false,
                   nsections := comp.nsections + 1 }) := by
  constructor
  · intro hk
    simp only [ne_eq, decide_not] at hk
    constructor
    · simp [wt_type10_comp_decode, hrep0, hk]
    · simp [wt_type10_comp_decode, hloop, hk]
  · intro k hk hk0
    simp only [ne_eq, decide_not] at hk
    constructor
    · simp [wt_type10_comp_decode, hrep0, hk, hk0]
    · simp [wt_type10_comp_decode, hloop, hk, hk0, setSec]

/-- Witness for C7: the amended theorem applied to token `"33!"` in a state
with an open inner loop and no outer repeat. -/
theorem c7_loop_count_validation_witness :
    wt_type10_comp_decode bankX { compZero with inner_loop := true }
        .outerLoopRepetition "33!".toList =
      .ok { { compZero with inner_loop := true } with repeats := 33 % 2 ^ 8 } := by
  exact ((c7_loop_count_validation bankX { compZero with inner_loop := true }
    "33!".toList rfl rfl).2 33 rfl (by decide)).1

/-! ## Claim C8 — default bank on absent/unrecognized prefix

On the no-prefix path `wt_type10_comp_waveform_get` never writes `bank[4]`
before comparing it with "RAM"/"ROM"/"OWT": the comparison reads
*uninitialized stack memory*.  When that residue happens to spell "ROM" the
section gets the ROM flag (bit 6) although the token named no bank, against
the claim (and the spec's own intent, §9 note).  An explicit unrecognized
prefix does default to RAM. -/

/-- C8: with residue "ROM" the bankless token `"1.100"` gets flag 0x40; with
a residue that spells nothing, and with an explicit unrecognized prefix, the
flags stay 0 as the claim demands. -/
theorem c8_uninitialized_bank_leak :
    wt_type10_comp_waveform_get "ROM".toList "1.100".toList compSectionZero =
      .ok { repeats := 0, flags := 0x40, delay := 0,
            wvfrm := { index := 1, amplitude := 100, duration := 0 } } ∧
    wt_type10_comp_waveform_get "XYZ".toList "1.100".toList compSectionZero =
      .ok { repeats := 0, flags := 0, delay := 0,
            wvfrm := { index := 1, amplitude := 100, duration := 0 } } ∧
    wt_type10_comp_waveform_get bankX "XYZ1.100".toList compSectionZero =
      .ok { repeats := 0, flags := 0, delay := 0,
            wvfrm := { index := 1, amplitude := 100, duration := 0 } } :=
  ⟨rfl, rfl, rfl⟩

/-! ## Claim C9 — determinism across runs

`struct wt_type12_pwle pwle` in `wt_type12_pwle_str_to_bin` is never
zero-initialized; among other fields, the `double nampsections` counter
starts from stack residue and is emitted (incremented) in the 24-bit total
word count of the header.  Two runs over identical inputs but different
residues produce different bytes. -/

/-- C9: the same valid PWLE input compiled from two different initial stack
residues yields different output bytes (both compiles succeed). -/
theorem c9_residue_changes_output :
    (get_owt_data pwleZero bankX inputC5R).toOption ≠
      (get_owt_data { pwleZero with nampsections := 1 } bankX inputC5R).toOption ∧
    (get_owt_data pwleZero bankX inputC5R).toOption ≠ none ∧
    (get_owt_data { pwleZero with nampsections := 1 } bankX
      inputC5R).toOption ≠ none := by
  decide

/-! ## Claim C10 — SVC braking time in sample units

`wt_type12_pwle_svc_braking_time_entry` stores `val * 8`
(`WT_TYPE12_PWLE_SAMPLES_PER_MS` = 8), and `wt_type12_pwle_write` emits that
stored value as the 24-bit field of the SVC metadata block. -/

/-- C10: a braking time of `k` ms (0 ≤ k ≤ 1000) is stored as `8·k`, and
whenever the metadata feature bit is set and the SVC id was stamped (mode
0–3), the write sequence carries the 24-bit SVC braking field `8·k`. -/
theorem c10_braking_time_in_sample_units (pw : WtPwle) (tok : List Char)
    (k : ℕ) (hat : atoiModel tok = (k : ℤ)) (hk : k ≤ 1000) :
    ∃ pw', wt_type12_pwle_svc_braking_time_entry pw tok = .ok pw' ∧
      pw'.svc.braking_time = 8 * k ∧
      ((pw'.feature &&& 1024 ≠ 0) → pw'.svc.id = 1 →
        ∃ pre post, pwleWrites pw' =
          pre ++ ([(8, pw'.svc.id), (8, pw'.svc.length), (8, pw'.svc.mode),
                   (24, 8 * k)] ++ post)) := by
  refine ⟨{ pw with svc := { pw.svc with braking_time := k * 8 } }, ?_, ?_, ?_⟩
  · unfold wt_type12_pwle_svc_braking_time_entry
    dsimp only
    rw [hat]
    rw [if_neg (by omega)]
    simp
  · simp [Nat.mul_comm]
  · intro hflag hid
    refine ⟨[(16, pw.feature), (8, 12), (24, 3),
             (24, pw.nsections * 2 + pw.nampsections + 3),
             (24, pw.wlength), (8, pw.repeats), (12, pw.wait),
             (8, pw.nsections)]
            ++ (List.range pw.nsections).flatMap
                 (fun i => pwleSectionWrites (pw.sections i)),
            (if pw.ep.id = 2 then
              [(8, pw.ep.id), (8, pw.ep.length), (8, pw.ep.payload)]
              ++ (if pw.ep.length = 1 then [(24, pw.ep.custom_threshold)]
                  else [])
             else [])
            ++ [(24, 0xFFFFFF)], ?_⟩
    rw [pwleWrites]
    dsimp only at hflag hid ⊢
    rw [if_pos hflag, if_pos hid]
    simp [List.append_assoc, Nat.mul_comm]

/-- Witness for C10: applied at a concrete struct with the metadata flag set
and SVC id stamped, and token value 1000. -/
theorem c10_braking_time_witness :
    atoiModel "1000".toList = (1000 : ℤ) ∧
    (∃ pw', wt_type12_pwle_svc_braking_time_entry
        { pwleZero with
          feature := 1024
          svc := { id := 1, length := 1, mode := 2, braking_time := 0 } }
        "1000".toList = .ok pw' ∧
      pw'.svc.braking_time = 8 * 1000 ∧
      ((pw'.feature &&& 1024 ≠ 0) → pw'.svc.id = 1 →
        ∃ pre post, pwleWrites pw' =
          pre ++ ([(8, pw'.svc.id), (8, pw'.svc.length), (8, pw'.svc.mode),
                   (24, 8 * 1000)] ++ post))) :=
  ⟨by decide,
   c10_braking_time_in_sample_units
     { pwleZero with
       feature := 1024
       svc := { id := 1, length := 1, mode := 2, braking_time := 0 } }
     "1000".toList 1000 (by decide) (by decide)⟩

end Owt
